import Mathlib
/-!
# Verification of the prompt-researcher scoring and learning subsystem

Shallow embedding of the research scoring, learning, and persistence code of
the `app-agents` repository:

* `ScoringSystem` from
  `src/agents/strategic/prompt-researcher/src/research_methodology.py`
* `LearningEngine` from
  `src/agents/strategic/prompt-researcher/src/memory_system.py`
* `MemorySystem` (SQLite persistence) from
  `src/agents/strategic/prompt-researcher/src/prompt_researcher.py`
* result filtering and summarisation from
  `src/agents/prompt-researcher/src/enhanced_prompt_researcher.py`

Modelling conventions:

* Python floats are embedded as exact rationals (`ℚ`); Python ints as `ℤ`/`ℕ`.
* Fallible Python code (raising exceptions) is embedded with `Except PyErr` /
  `Option`.
* Python dicts are embedded as insertion-ordered association lists.
* SQLite tables are embedded as lists of typed rows; `INSERT` appends in rowid
  order, `SELECT` without `ORDER BY` reads in rowid order.
-/
/-- Python exception kinds that the embedded code can raise. -/
inductive PyErr where
  | zeroDivision
  | typeError
  deriving DecidableEq, Repr

/-! ## Python string helpers

All string work is done on the underlying character lists, so every
definition is structurally recursive and evaluates inside the kernel.
`Char.toLower` case-folds ASCII letters, which is Python `str.lower()`
restricted to ASCII. -/
/-- Python `str.lower()`. -/
def pyLower (s : String) : String := ⟨s.data.map Char.toLower⟩

/-- Worker for `pySplit`: accumulate the current word (reversed). -/
def pySplitAux : List Char → List Char → List String
  | [], acc => if acc.isEmpty then [] else [⟨acc.reverse⟩]
  | c :: rest, acc =>
    if c.isWhitespace then
      if acc.isEmpty then pySplitAux rest [] else ⟨acc.reverse⟩ :: pySplitAux rest []
    else pySplitAux rest (c :: acc)

/-- Python `str.split()`: split on whitespace runs, dropping empty pieces. -/
def pySplit (s : String) : List String := pySplitAux s.data []

/-- Python `str.strip()`: drop whitespace from both ends. -/
def pyStrip (s : String) : String :=
  ⟨((s.data.dropWhile Char.isWhitespace).reverse.dropWhile Char.isWhitespace).reverse⟩

/-- `pre` is a prefix of `l`. -/
def isPrefixOfB : List Char → List Char → Bool
  | [], _ => true
  | _ :: _, [] => false
  | a :: as_, b :: bs => a == b && isPrefixOfB as_ bs

/-- `needle` occurs contiguously in `hay`. -/
def isInfixOfB (needle : List Char) : List Char → Bool
  | [] => needle.isEmpty
  | b :: rest => isPrefixOfB needle (b :: rest) || isInfixOfB needle rest

/-- Python `needle in hay` on strings: contiguous-substring test. -/
def strContains (hay needle : String) : Bool :=
  isInfixOfB needle.data hay.data

/-! ## JSON-style Python values

`JVal` models the Python values that can live in a `SearchResult.metadata`
dict: JSON scalars, lists, string-keyed dicts, plus `pyobj`, an arbitrary
Python object that `json.dumps` cannot serialise.  Numbers are modelled as
integers (the metadata fields consumed by the scoring code are ints). -/
inductive JVal where
  | null
  | bool (b : Bool)
  | int (n : ℤ)
  | str (s : String)
  | arr (xs : List JVal)
  | obj (kvs : List (String × JVal))
  | pyobj (tag : ℕ)

/-- Association-list lookup, i.e. Python `dict.get key`. -/
def jlookup (kvs : List (String × JVal)) (k : String) : Option JVal :=
  match kvs with
  | [] => none
  | (k0, v) :: rest => if k0 = k then some v else jlookup rest k

/-- Python `metadata.get(key, 0)` followed by use in arithmetic: an absent key
yields 0, an int yields its value, a bool is an int subtype (`True == 1`),
any other value makes the arithmetic raise `TypeError`. -/
def getNum (kvs : List (String × JVal)) (k : String) : Except PyErr ℤ :=
  match jlookup kvs k with
  | none => .ok 0
  | some (.int n) => .ok n
  | some (.bool b) => .ok (if b then 1 else 0)
  | some _ => .error .typeError

/-! ## Dates and times

`DateTime` embeds Python `datetime.datetime` (second fields as naturals,
microsecond precision).  `toMicro` is the count of microseconds since the
proleptic-Gregorian epoch, matching `datetime.toordinal` arithmetic, so that
`now - timestamp` comparisons on `timedelta`s are differences of `toMicro`. -/
structure DateTime where
  year : ℕ
  month : ℕ
  day : ℕ
  hour : ℕ
  minute : ℕ
  second : ℕ
  microsecond : ℕ
  deriving DecidableEq, Repr

/-- Gregorian leap-year test. -/
def isLeap (y : ℕ) : Bool :=
  y % 4 == 0 && (y % 100 != 0 || y % 400 == 0)

/-- Days in a month of a given year. -/
def daysInMonth (y m : ℕ) : ℕ :=
  if m = 2 then (if isLeap y then 29 else 28)
  else if m = 4 ∨ m = 6 ∨ m = 9 ∨ m = 11 then 30
  else 31

/-- Days in all years strictly before year `y` (proleptic Gregorian),
as in Python `datetime.toordinal`. -/
def daysBeforeYear (y : ℕ) : ℕ :=
  365 * (y - 1) + (y - 1) / 4 - (y - 1) / 100 + (y - 1) / 400

/-- Days in the months of year `y` strictly before month `m`. -/
def daysBeforeMonth (y m : ℕ) : ℕ :=
  ((List.range m).drop 1).foldl (fun acc mo => acc + daysInMonth y mo) 0

/-- `datetime.toordinal`-style day number. -/
def DateTime.toDays (t : DateTime) : ℕ :=
  daysBeforeYear t.year + daysBeforeMonth t.year t.month + (t.day - 1)

/-- Microseconds since day 0: the linearisation under which Python compares
`datetime` values and computes `timedelta`s. -/
def DateTime.toMicro (t : DateTime) : ℤ :=
  ((t.toDays * 86400 + t.hour * 3600 + t.minute * 60 + t.second : ℕ) : ℤ) * 1000000
    + (t.microsecond : ℤ)

/-- The field ranges `datetime.datetime` enforces on construction. -/
def DateTime.Valid (t : DateTime) : Prop :=
  1 ≤ t.year ∧ t.year ≤ 9999 ∧ 1 ≤ t.month ∧ t.month ≤ 12 ∧
  1 ≤ t.day ∧ t.day ≤ daysInMonth t.year t.month ∧
  t.hour ≤ 23 ∧ t.minute ≤ 59 ∧ t.second ≤ 59 ∧ t.microsecond ≤ 999999

instance (t : DateTime) : Decidable t.Valid :=
  inferInstanceAs (Decidable (_ ∧ _))

/-- Decimal digit character. -/
def digitChar (n : ℕ) : Char := Char.ofNat (48 + n)

/-- Two-digit zero-padded decimal. -/
def pad2 (n : ℕ) : List Char := [digitChar (n / 10 % 10), digitChar (n % 10)]

/-- Four-digit zero-padded decimal. -/
def pad4 (n : ℕ) : List Char :=
  [digitChar (n / 1000 % 10), digitChar (n / 100 % 10),
   digitChar (n / 10 % 10), digitChar (n % 10)]

/-- Six-digit zero-padded decimal. -/
def pad6 (n : ℕ) : List Char :=
  [digitChar (n / 100000 % 10), digitChar (n / 10000 % 10),
   digitChar (n / 1000 % 10), digitChar (n / 100 % 10),
   digitChar (n / 10 % 10), digitChar (n % 10)]

/-- Python `datetime.isoformat()`: `YYYY-MM-DDTHH:MM:SS`, plus `.ffffff`
exactly when the microsecond field is nonzero. -/
def DateTime.isoformatL (t : DateTime) : List Char :=
  pad4 t.year ++ [Char.ofNat 45] ++ pad2 t.month ++ [Char.ofNat 45] ++ pad2 t.day
    ++ [Char.ofNat 84] ++ pad2 t.hour ++ [Char.ofNat 58] ++ pad2 t.minute
    ++ [Char.ofNat 58] ++ pad2 t.second
    ++ (if t.microsecond = 0 then [] else Char.ofNat 46 :: pad6 t.microsecond)

def DateTime.isoformat (t : DateTime) : String := ⟨t.isoformatL⟩

/-! ## `datetime.strptime` for the recency-score formats

`ScoringSystem.calculate_recency_score` tries the formats
`%Y-%m-%dT%H:%M:%S`, `%Y-%m-%d`, `%Y-%m-%dT%H:%M:%SZ` in order against the
first 19 characters of its input.  CPython `strptime` matches `%Y` as exactly
four digits and the other fields as one or two digits (two-digit matches are
tried first; since every field here is followed by a non-digit separator or
the end of the string, that committed choice coincides with regex
backtracking).  Literal letters match case-insensitively.  Range checks that
CPython performs at `datetime` construction (year ≥ 1, day within month,
second ≤ 59) make that format attempt fail with `ValueError`, which the code
treats identically to a regex mismatch, so they are folded into the parser. -/
def charVal (c : Char) : ℕ := c.toNat - 48

/-- Parse a one- or two-digit field with inclusive value range, two digits
preferred. -/
def parse2or1 (lo hi : ℕ) : List Char → Option (ℕ × List Char)
  | c1 :: c2 :: rest =>
    if c1.isDigit ∧ c2.isDigit ∧ lo ≤ charVal c1 * 10 + charVal c2 ∧
        charVal c1 * 10 + charVal c2 ≤ hi then
      some (charVal c1 * 10 + charVal c2, rest)
    else if c1.isDigit ∧ lo ≤ charVal c1 ∧ charVal c1 ≤ hi then
      some (charVal c1, c2 :: rest)
    else none
  | [c1] =>
    if c1.isDigit ∧ lo ≤ charVal c1 ∧ charVal c1 ≤ hi then some (charVal c1, [])
    else none
  | [] => none

/-- Parse exactly four digits (`%Y`). -/
def parse4 : List Char → Option (ℕ × List Char)
  | c1 :: c2 :: c3 :: c4 :: rest =>
    if c1.isDigit ∧ c2.isDigit ∧ c3.isDigit ∧ c4.isDigit then
      some (((charVal c1 * 10 + charVal c2) * 10 + charVal c3) * 10 + charVal c4, rest)
    else none
  | _ => none

/-- Match one literal character exactly. -/
def lit (c : Char) : List Char → Option (List Char)
  | c0 :: rest => if c0 = c then some rest else none
  | [] => none

/-- Match one literal letter case-insensitively (CPython strptime compiles its
regex with IGNORECASE). -/
def litCI (c : Char) : List Char → Option (List Char)
  | c0 :: rest => if c0.toLower = c.toLower then some rest else none
  | [] => none

/-- Shared date part `%Y-%m-%d` of all three formats, with the construction
checks on year and day folded in. -/
def parseDatePart (cs : List Char) : Option ((ℕ × ℕ × ℕ) × List Char) := do
  let (y, cs) ← parse4 cs
  let cs ← lit (Char.ofNat 45) cs
  let (m, cs) ← parse2or1 1 12 cs
  let cs ← lit (Char.ofNat 45) cs
  let (d, cs) ← parse2or1 1 31 cs
  if 1 ≤ y ∧ d ≤ daysInMonth y m then pure ((y, m, d), cs) else none

/-- Shared time part `T%H:%M:%S`. -/
def parseTimePart (cs : List Char) : Option ((ℕ × ℕ × ℕ) × List Char) := do
  let cs ← litCI (Char.ofNat 84) cs
  let (h, cs) ← parse2or1 0 23 cs
  let cs ← lit (Char.ofNat 58) cs
  let (mi, cs) ← parse2or1 0 59 cs
  let cs ← lit (Char.ofNat 58) cs
  let (s, cs) ← parse2or1 0 59 cs
  pure ((h, mi, s), cs)

/-- Format `%Y-%m-%dT%H:%M:%S` against the whole string. -/
def parseFmt1 (cs : List Char) : Option DateTime := do
  let ((y, m, d), cs) ← parseDatePart cs
  let ((h, mi, s), cs) ← parseTimePart cs
  if cs = [] then pure ⟨y, m, d, h, mi, s, 0⟩ else none

/-- Format `%Y-%m-%d` against the whole string. -/
def parseFmt2 (cs : List Char) : Option DateTime := do
  let ((y, m, d), cs) ← parseDatePart cs
  if cs = [] then pure ⟨y, m, d, 0, 0, 0, 0⟩ else none

/-- Format `%Y-%m-%dT%H:%M:%SZ` against the whole string. -/
def parseFmt3 (cs : List Char) : Option DateTime := do
  let ((y, m, d), cs) ← parseDatePart cs
  let ((h, mi, s), cs) ← parseTimePart cs
  let cs ← litCI (Char.ofNat 90) cs
  if cs = [] then pure ⟨y, m, d, h, mi, s, 0⟩ else none

/-- The timestamp-parsing loop of `calculate_recency_score`: truncate to 19
characters, try the three formats in order. -/
def parseTimestamp (s : String) : Option DateTime :=
  let t := s.data.take 19
  (parseFmt1 t).orElse (fun _ => (parseFmt2 t).orElse (fun _ => parseFmt3 t))

/-- The age-bracket scoring of `calculate_recency_score`; `age` is the
`timedelta` `now - timestamp` in microseconds. -/
def recencyScoreOfAge (age : ℤ) : ℚ :=
  if age ≤ 30 * 86400000000 then 1
  else if age ≤ 90 * 86400000000 then 8 / 10
  else if age ≤ 365 * 86400000000 then 6 / 10
  else if age ≤ 730 * 86400000000 then 4 / 10
  else 2 / 10

/-- `ScoringSystem.calculate_recency_score` on a string timestamp; `now` is
`datetime.now()` in microseconds.  Any parse failure returns the default. -/
def calculate_recency_score (timestamp_str : String) (now : ℤ) : ℚ :=
  match parseTimestamp timestamp_str with
  | none => 1 / 2
  | some t => recencyScoreOfAge (now - t.toMicro)

/-! ## `ScoringSystem` factor scores -/
/-- `ScoringSystem.calculate_relevance_score`.  Dividing by the number of
query terms raises `ZeroDivisionError` when `query.lower().split()` is
empty. -/
def calculate_relevance_score (result_title result_content query : String) :
    Except PyErr ℚ :=
  let query_terms := pySplit (pyLower query)
  let title_lower := pyLower result_title
  let content_lower := pyLower result_content
  let title_matches := (query_terms.filter (fun t => strContains title_lower t)).length
  let content_matches := (query_terms.filter (fun t => strContains content_lower t)).length
  if query_terms.length = 0 then .error .zeroDivision
  else
    let title_score := min ((title_matches : ℚ) / query_terms.length) 1 * 2
    let content_score := min ((content_matches : ℚ) / query_terms.length) 1
    .ok (min ((title_score + content_score) / 3) 1)

/-- The `source_authority` base-score table of `calculate_authority_score`
(`dict.get source 0.5`). -/
def sourceAuthority (source : String) : ℚ :=
  if source = "github" then 9 / 10
  else if source = "academic" then 19 / 20
  else if source = "web" then 7 / 10
  else if source = "reddit" then 6 / 10
  else if source = "youtube" then 1 / 2
  else if source = "blog" then 6 / 10
  else if source = "forum" then 1 / 2
  else 1 / 2

/-- `ScoringSystem.calculate_authority_score`. -/
def calculate_authority_score (source : String) (metadata : List (String × JVal)) :
    Except PyErr ℚ := do
  let base_score := sourceAuthority source
  if source = "github" then
    let stars ← getNum metadata "stars"
    let forks ← getNum metadata "forks"
    let star_score := min ((stars : ℚ) / 1000) 1 * (3 / 10)
    let fork_score := min ((forks : ℚ) / 100) 1 * (2 / 10)
    pure (min (base_score + star_score + fork_score) 1)
  else if source = "reddit" then
    let score ← getNum metadata "score"
    let comments ← getNum metadata "num_comments"
    let score_boost := min ((score : ℚ) / 100) 1 * (2 / 10)
    let comment_boost := min ((comments : ℚ) / 50) 1 * (1 / 10)
    pure (min (base_score + score_boost + comment_boost) 1)
  else
    pure base_score

/-- `ScoringSystem.calculate_engagement_score`. -/
def calculate_engagement_score (source : String) (metadata : List (String × JVal)) :
    Except PyErr ℚ := do
  if source = "github" then
    let stars ← getNum metadata "stars"
    let forks ← getNum metadata "forks"
    let watchers ← getNum metadata "watchers"
    let star_score := min ((stars : ℚ) / 500) 1 * (5 / 10)
    let fork_score := min ((forks : ℚ) / 100) 1 * (3 / 10)
    let watcher_score := min ((watchers : ℚ) / 50) 1 * (2 / 10)
    pure (star_score + fork_score + watcher_score)
  else if source = "reddit" then
    let score ← getNum metadata "score"
    let comments ← getNum metadata "num_comments"
    let score_norm := min ((score : ℚ) / 50) 1 * (6 / 10)
    let comment_norm := min ((comments : ℚ) / 25) 1 * (4 / 10)
    pure (score_norm + comment_norm)
  else if source = "youtube" then
    let views ← getNum metadata "views"
    let likes ← getNum metadata "likes"
    let view_score := min ((views : ℚ) / 10000) 1 * (7 / 10)
    let like_score := min ((likes : ℚ) / 100) 1 * (3 / 10)
    pure (view_score + like_score)
  else
    pure (1 / 2)

/-- Python `v is not None and v != ''` for a metadata value. -/
def JVal.counted : JVal → Bool
  | .null => false
  | .str s => !(s == "")
  | _ => true

/-- `len([v for v in metadata.values() if v is not None and v != ''])`. -/
def metadataRichness (metadata : List (String × JVal)) : ℕ :=
  (metadata.filter (fun kv => kv.2.counted)).length

/-- `ScoringSystem.calculate_completeness_score`. -/
def calculate_completeness_score (content : String) (metadata : List (String × JVal)) : ℚ :=
  let content_length := (pyStrip content).length
  let metadata_richness := metadataRichness metadata
  let length_score := min ((content_length : ℚ) / 1000) 1 * (7 / 10)
  let metadata_score := min ((metadata_richness : ℚ) / 10) 1 * (3 / 10)
  length_score + metadata_score

/-- `SearchResult` dataclass of `prompt_researcher.py`. -/
structure SearchResult where
  title : String
  url : String
  content : String
  source : String
  timestamp : DateTime
  metadata : List (String × JVal)
  relevance_score : ℚ

/-- `ScoringSystem.calculate_overall_score`; `now` is `datetime.now()` in
microseconds at the inner recency call.  (The Python code additionally
mutates `result.metadata` with a scoring breakdown; the return value is
unaffected.)  The factor scores are combined with the `scoring_criteria`
weights 0.30, 0.25, 0.20, 0.15, 0.10. -/
def calculate_overall_score (result : SearchResult) (query : String) (now : ℤ) :
    Except PyErr ℚ := do
  let relevance ← calculate_relevance_score result.title result.content query
  let authority ← calculate_authority_score result.source result.metadata
  let recency := calculate_recency_score result.timestamp.isoformat now
  let engagement ← calculate_engagement_score result.source result.metadata
  let completeness := calculate_completeness_score result.content result.metadata
  pure (relevance * (30 / 100) + authority * (25 / 100) + recency * (20 / 100)
    + engagement * (15 / 100) + completeness * (10 / 100))

/-- The keys that the scoring functions read from `metadata` with
`metadata.get(key, 0)`. -/
def scoringKeys : List String :=
  ["stars", "forks", "watchers", "score", "num_comments", "views", "likes"]

/-- Metadata whose numeric scoring fields exist as nonnegative ints (or are
absent, which Python defaults to 0). -/
def numOkB (md : List (String × JVal)) (k : String) : Bool :=
  match getNum md k with
  | .ok n => decide (0 ≤ n)
  | .error _ => false

def MetaNonneg (md : List (String × JVal)) : Prop :=
  ∀ k ∈ scoringKeys, numOkB md k = true

instance (md : List (String × JVal)) : Decidable (MetaNonneg md) :=
  List.decidableBAll _ _

/-! ## Claim C1 -/
/-- Concrete result for the C1 counterexample: a Reddit post with a heavily
negative score, as the Reddit API can return. -/
def c1CEresult : SearchResult :=
  ⟨"x", "", "", "reddit", ⟨2023, 1, 1, 0, 0, 0, 0⟩, [("score", JVal.int (-1000000))], 0⟩

def c1CEnow : ℤ := (DateTime.mk 2023 1 1 0 0 0 0).toMicro

/-! ## Stable sorting

Python `sorted` (and `list.sort`) is a stable sort; a stable sort is uniquely
determined by the order predicate, so stable insertion sort embeds it
exactly.  `le a b = true` means `a` may come before `b`; on ties the original
order is kept. -/
def insertSorted (le : α → α → Bool) (a : α) : List α → List α
  | [] => [a]
  | b :: l => if le a b then a :: b :: l else b :: insertSorted le a l

def sortStable (le : α → α → Bool) : List α → List α
  | [] => []
  | a :: l => insertSorted le a (sortStable le l)

/-! ## Python string comparison

Python compares strings lexicographically by code point.  `charListLe` is
that order on the underlying character lists (structurally recursive, so it
evaluates in the kernel, unlike `String.decidableLE`). -/
def charListLe : List Char → List Char → Bool
  | [], _ => true
  | _ :: _, [] => false
  | a :: as_, b :: bs =>
    if a.toNat < b.toNat then true
    else if b.toNat < a.toNat then false
    else charListLe as_ bs

def pyStrLe (a b : String) : Bool := charListLe a.data b.data

/-! ## `LearningEngine` search patterns -/
/-- Keyword extraction shared by `_update_search_pattern` and
`get_optimization_recommendations`:
`[word.lower().strip() for word in query.split() if len(word) > 2]`. -/
def extractKeywords (query : String) : List String :=
  ((pySplit query).filter (fun w => 2 < w.length)).map (fun w => pyStrip (pyLower w))

/-- Python `"_".join`. -/
def pyJoinUnderscore : List String → String
  | [] => ""
  | [s] => s
  | s :: rest => s ++ "_" ++ pyJoinUnderscore rest

/-- `pattern_key = "_".join(sorted(keywords))` of `_update_search_pattern`.
Note: `sorted` keeps duplicate keywords. -/
def patternKey (query : String) : String :=
  pyJoinUnderscore (sortStable pyStrLe (extractKeywords query))

/-- A row of the `search_patterns` table. -/
structure PatternRow where
  pattern_id : String
  query_keywords : List String
  successful_sources : List String
  optimal_parameters : List (String × JVal)
  success_rate : ℚ
  usage_count : ℕ
  last_used : String
  effectiveness_score : ℚ

/-- `LearningEngine._update_search_pattern` acting on the (optional) existing
row for the query's pattern key; `now` is `datetime.now().isoformat()`. -/
def updateSearchPattern (existing : Option PatternRow) (query source : String)
    (avg_relevance : ℚ) (results_count : ℕ) (now : String) : PatternRow :=
  let keywords := extractKeywords query
  let pattern_key := patternKey query
  match existing with
  | some p =>
    let new_success_rate :=
      (p.success_rate * (p.usage_count : ℚ) + avg_relevance) / ((p.usage_count : ℚ) + 1)
    let new_usage_count := p.usage_count + 1
    let current_sources :=
      if source ∈ p.successful_sources then p.successful_sources
      else p.successful_sources ++ [source]
    { p with
      successful_sources := current_sources,
      success_rate := new_success_rate,
      usage_count := new_usage_count,
      last_used := now,
      effectiveness_score := new_success_rate * (results_count : ℚ) }
  | none =>
    ⟨pattern_key, keywords, [source], [], avg_relevance, 1, now,
      avg_relevance * (results_count : ℚ)⟩

/-- One call to `_update_search_pattern`. -/
structure PatternCall where
  query : String
  source : String
  avg_relevance : ℚ
  results_count : ℕ
  now : String

/-- A sequence of `_update_search_pattern` calls against the row for one
pattern key. -/
def runPatternCalls (st : Option PatternRow) : List PatternCall → Option PatternRow
  | [] => st
  | c :: rest =>
    runPatternCalls
      (some (updateSearchPattern st c.query c.source c.avg_relevance c.results_count c.now))
      rest

/-! ## Claim C9: pattern keys and recommendation matching -/
/-- `overlap = len(set(keywords) & set(pattern_keywords))` of
`get_optimization_recommendations`. -/
def kwOverlap (kw pkw : List String) : ℕ :=
  (kw.dedup.filter (fun w => decide (w ∈ pkw))).length

/-- `similarity = overlap / max(len(keywords), len(pattern_keywords)) if
keywords and pattern_keywords else 0` — note the `len`s count the keyword
lists with duplicates. -/
def similarity (kw pkw : List String) : ℚ :=
  if kw ≠ [] ∧ pkw ≠ [] then
    (kwOverlap kw pkw : ℚ) / ((max kw.length pkw.length : ℕ) : ℚ)
  else 0

/-! ## Claim C3: recommendations and optimized strategies -/
/-- A row of the `learning_insights` table (fields the recommendation code
does not read are kept as raw strings). -/
structure InsightRow where
  insight_id : String
  insight_type : String
  description : String
  confidence : ℚ
  supporting_evidence : String
  created_at : String
  applications : String

/-- The `recommendations` dict built by `get_optimization_recommendations`. -/
structure Recommendations where
  source_priorities : List (String × ℚ)
  query_suggestions : List String
  parameter_optimizations : List (String × JVal)
  confidence : ℚ

/-- `ResearchStrategy` dataclass of `memory_system.py`. -/
structure ResearchStrategy where
  strategy_id : String
  name : String
  description : String
  query_patterns : List String
  source_priorities : List (String × ℚ)
  parameter_optimizations : List (String × JVal)
  success_metrics : List (String × ℚ)
  created_at : String
  usage_count : ℕ

/-- `defaultdict(float)` vote accumulation: add `w` to `s`, inserting at the
end on first touch (Python dict insertion order). -/
def addVote (votes : List (String × ℚ)) (s : String) (w : ℚ) : List (String × ℚ) :=
  match votes with
  | [] => [(s, w)]
  | (k, v) :: rest => if k = s then (k, v + w) :: rest else (k, v) :: addVote rest s w

/-- Association-list lookup for rational-valued dicts. -/
def qlookup (kvs : List (String × ℚ)) (k : String) : Option ℚ :=
  match kvs with
  | [] => none
  | (k0, v) :: rest => if k0 = k then some v else qlookup rest k

/-- Multiply the entry at key `k` by `f` (Python `d[k] *= f`), keeping its
position. -/
def scaleEntry (kvs : List (String × ℚ)) (k : String) (f : ℚ) : List (String × ℚ) :=
  match kvs with
  | [] => []
  | (k0, v) :: rest =>
    if k0 = k then (k0, v * f) :: rest else (k0, v) :: scaleEntry rest k f

/-- The per-insight update in the tail of
`get_optimization_recommendations`. -/
def applyInsight (rec : Recommendations) (ins : InsightRow) : Recommendations :=
  if ins.insight_type = "source_effectiveness" then
    if strContains ins.description "performs significantly better" then
      let parts := pySplit ins.description
      if 5 < parts.length then
        let recommended_source := parts.getD 5 ""
        if (qlookup rec.source_priorities recommended_source).isSome then
          { rec with source_priorities :=
              scaleEntry rec.source_priorities recommended_source (12 / 10) }
        else rec
      else rec
    else rec
  else if ins.insight_type = "query_complexity" then
    { rec with query_suggestions :=
        rec.query_suggestions ++ ["Consider simplifying the query for better results"] }
  else rec

/-- `LearningEngine.get_optimization_recommendations`.  `patternsTable` and
`insightsTable` are the two SQLite tables; the `ORDER BY ... DESC` clauses
are stable descending sorts of the rows. -/
def getOptimizationRecommendations (query : String)
    (patternsTable : List PatternRow) (insightsTable : List InsightRow) :
    Recommendations :=
  let keywords := extractKeywords query
  let patterns :=
    sortStable (fun a b => decide (b.effectiveness_score ≤ a.effectiveness_score))
      patternsTable
  let matching :=
    (patterns.map (fun p => (p, similarity keywords p.query_keywords))).filter
      (fun x => decide ((3 : ℚ) / 10 < x.2))
  let rec0 : Recommendations := ⟨[], [], [], 0⟩
  let rec1 :=
    if matching.isEmpty then rec0
    else
      let sorted :=
        sortStable (fun a b =>
          decide (b.2 * b.1.effectiveness_score ≤ a.2 * a.1.effectiveness_score)) matching
      let top := sorted.take 5
      let total_weight := (top.map (fun x => x.2 * x.1.effectiveness_score)).sum
      let votes := top.foldl
        (fun acc x => x.1.successful_sources.foldl
          (fun acc2 s => addVote acc2 s (x.2 * x.1.effectiveness_score)) acc) []
      if 0 < total_weight then
        { rec0 with
          source_priorities := votes.map (fun kv => (kv.1, kv.2 / total_weight)),
          confidence := min (total_weight / (matching.length : ℚ)) 1 }
      else rec0
  let goodInsights :=
    (sortStable (fun a b => decide (b.confidence ≤ a.confidence))
      (insightsTable.filter (fun i => decide ((1 : ℚ) / 2 < i.confidence)))).take 3
  goodInsights.foldl applyInsight rec1

/-- Single-quote character, used in the strategy description f-string. -/
def quoteChar : String := ⟨[Char.ofNat 39]⟩

/-- `LearningEngine.create_optimized_strategy`; `sid` is the md5-derived
strategy id and `nowIso` the creation timestamp (both time-dependent in
Python).  The `_store_strategy` DB write is outside the claim. -/
def createOptimizedStrategy (query research_type sid nowIso : String)
    (patternsTable : List PatternRow) (insightsTable : List InsightRow) :
    Option ResearchStrategy :=
  let recommendations := getOptimizationRecommendations query patternsTable insightsTable
  if recommendations.confidence < 3 / 10 then none
  else some
    { strategy_id := sid
      name := "Optimized Strategy for " ++ research_type
      description := "Auto-generated strategy based on learned patterns for queries similar to "
        ++ quoteChar ++ query ++ quoteChar
      query_patterns := [query]
      source_priorities := recommendations.source_priorities
      parameter_optimizations := recommendations.parameter_optimizations
      success_metrics := [("confidence", recommendations.confidence)]
      created_at := nowIso
      usage_count := 0 }

/-- Pattern row for the C3 witness. -/
def patC3 : PatternRow :=
  ⟨"learning_machine", ["machine", "learning"], ["github"], [], 1, 1, "t0", 1⟩

/-- The strategy the C3 witness input produces. -/
def c3WitnessStrategy : ResearchStrategy :=
  match createOptimizedStrategy "machine learning" "technology_analysis" "sid" "now"
    [patC3] [] with
  | some s => s
  | none => ⟨"", "", "", [], [], [], [], "", 0⟩

/-! ## Claim C5: quality filtering and results summary -/
/-- The scoring loop of `conduct_enhanced_research`: each raw result's
`relevance_score` is set to its computed overall score (any scoring
exception propagates). -/
def rescoreResults (query : String) (now : ℤ) :
    List SearchResult → Except PyErr (List SearchResult)
  | [] => .ok []
  | r :: rest => do
    let v ← calculate_overall_score r query now
    let tail ← rescoreResults query now rest
    pure ({ r with relevance_score := v } :: tail)

/-- `[r for r in scored_results if r.relevance_score >= quality_threshold]`,
with `quality_threshold = methodology.quality_thresholds.get('minimum_score', 0.3)`. -/
def filterHighQuality (threshold : ℚ) (scored : List SearchResult) : List SearchResult :=
  scored.filter (fun r => decide (threshold ≤ r.relevance_score))

/-- One entry of the summary's `top_results`. -/
structure TopResult where
  title : String
  source : String
  quality_score : ℚ
  url : String

/-- The dict returned by `_create_results_summary` (the empty-input early
return carries no `quality_range` key, hence the `Option`). -/
structure ResultsSummary where
  total : ℕ
  sources : List (String × ℕ)
  avg_quality : ℚ
  quality_range : Option (ℚ × ℚ)
  top_results : List TopResult

/-- Insertion-ordered counter increment
(`source_counts[s] = source_counts.get(s, 0) + 1`). -/
def addCount (counts : List (String × ℕ)) (s : String) : List (String × ℕ) :=
  match counts with
  | [] => [(s, 1)]
  | (k, v) :: rest => if k = s then (k, v + 1) :: rest else (k, v) :: addCount rest s

/-- Python `min` over a nonempty list. -/
def qListMin : List ℚ → ℚ
  | [] => 0
  | x :: rest => rest.foldl min x

/-- Python `max` over a nonempty list. -/
def qListMax : List ℚ → ℚ
  | [] => 0
  | x :: rest => rest.foldl max x

/-- `EnhancedPromptResearcher._create_results_summary`. -/
def createResultsSummary (results : List SearchResult) : ResultsSummary :=
  if results.isEmpty then ⟨0, [], 0, none, []⟩
  else
    let source_counts := results.foldl (fun acc r => addCount acc r.source) []
    let quality_scores := results.map (·.relevance_score)
    let top_results :=
      (sortStable (fun a b => decide (b.relevance_score ≤ a.relevance_score))
        results).take 5
    ⟨results.length, source_counts,
      quality_scores.sum / (quality_scores.length : ℚ),
      some (qListMin quality_scores, qListMax quality_scores),
      top_results.map (fun r => ⟨r.title, r.source, r.relevance_score, r.url⟩)⟩

/-- Raw results for the C5 witness. -/
def c5Raws : List SearchResult :=
  [⟨"x", "u1", "", "web", ⟨2024, 1, 1, 0, 0, 0, 0⟩, [], 0⟩,
   ⟨"zzz", "u2", "", "web", ⟨2024, 1, 1, 0, 0, 0, 0⟩, [], 0⟩]

def c5Now : ℤ := (DateTime.mk 2024 1 1 0 0 0 0).toMicro

/-- The scored list the C5 witness input produces. -/
def c5Scored : List SearchResult :=
  match rescoreResults "x" c5Now c5Raws with
  | .ok l => l
  | .error _ => []

/-! ## JSON serialisation (`json.dumps` / `json.loads`)

The persistence claims need the composite `json.loads(json.dumps(x))`.
`dumps` is modelled with CPython's default separators and escapes for `"`,
`\` and control characters (short escapes plus `\u00XX`); characters from
U+0020 up are emitted raw, which `json.loads` also accepts, so the
loads-after-dumps composite is unchanged by this simplification of
`ensure_ascii`.  Numbers are ints, as everywhere in this embedding. -/
/-- JSON insignificant whitespace. -/
def isJsonWs (c : Char) : Bool :=
  c = Char.ofNat 32 ∨ c = Char.ofNat 9 ∨ c = Char.ofNat 10 ∨ c = Char.ofNat 13

def skipWs : List Char → List Char
  | [] => []
  | c :: cs => if isJsonWs c then skipWs cs else c :: cs

/-- Consume a run of decimal digits accumulating a value. -/
def parseNatAux : List Char → ℕ → ℕ × List Char
  | [], acc => (acc, [])
  | c :: cs, acc =>
    if c.isDigit then parseNatAux cs (acc * 10 + charVal c) else (acc, c :: cs)

/-- Parse one or more decimal digits. -/
def parseNat (cs : List Char) : Option (ℕ × List Char) :=
  match cs with
  | c :: _ => if c.isDigit then some (parseNatAux cs 0) else none
  | [] => none

/-- Decimal digits of `n` (most significant first); `fuel ≥ n` guarantees
completeness. -/
def natDigits : ℕ → ℕ → List Char
  | 0, _ => []
  | fuel + 1, n =>
    if n < 10 then [digitChar n]
    else natDigits fuel (n / 10) ++ [digitChar (n % 10)]

/-- Decimal representation of a natural number. -/
def encNat (n : ℕ) : List Char := natDigits (n + 1) n

/-- `repr` of a Python int, as emitted by `json.dumps`. -/
def encInt (i : ℤ) : List Char :=
  if i < 0 then Char.ofNat 45 :: encNat i.natAbs else encNat i.toNat

/-- A JSON number literal: optional minus, then digits. -/
def parseInt (cs : List Char) : Option (ℤ × List Char) :=
  match cs with
  | c :: rest =>
    if c = Char.ofNat 45 then (parseNat rest).map (fun p => (-(p.1 : ℤ), p.2))
    else (parseNat cs).map (fun p => ((p.1 : ℤ), p.2))
  | [] => none

/-! ## JSON string escaping -/
def quoteC : Char := Char.ofNat 34

def bslashC : Char := Char.ofNat 92

def lbraceC : Char := Char.ofNat 123

def rbraceC : Char := Char.ofNat 125

/-- Lowercase hex digit. -/
def hexDigitChar (n : ℕ) : Char :=
  if n < 10 then digitChar n else Char.ofNat (87 + n)

/-- Value of a hex digit (either case). -/
def hexVal (c : Char) : ℕ :=
  if c.isDigit then charVal c
  else if 97 ≤ c.toNat then c.toNat - 87
  else c.toNat - 55

def isHexDigit (c : Char) : Bool :=
  c.isDigit ∨ (97 ≤ c.toNat ∧ c.toNat ≤ 102) ∨ (65 ≤ c.toNat ∧ c.toNat ≤ 70)

/-- `json.dumps` escaping of one character: `\"`, `\\`, the short control
escapes, `\u00xx` for other control characters, everything else raw. -/
def escapeChar (c : Char) : List Char :=
  if c = quoteC then [bslashC, quoteC]
  else if c = bslashC then [bslashC, bslashC]
  else if c.toNat = 8 then [bslashC, 'b']
  else if c.toNat = 9 then [bslashC, 't']
  else if c.toNat = 10 then [bslashC, 'n']
  else if c.toNat = 12 then [bslashC, 'f']
  else if c.toNat = 13 then [bslashC, 'r']
  else if c.toNat < 32 then
    [bslashC, 'u', digitChar 0, digitChar 0,
     hexDigitChar (c.toNat / 16), hexDigitChar (c.toNat % 16)]
  else [c]

def escapeList : List Char → List Char
  | [] => []
  | c :: cs => escapeChar c ++ escapeList cs

/-- `json.dumps` of a string value. -/
def encString (s : String) : List Char := quoteC :: (escapeList s.data ++ [quoteC])

/-- Parse a JSON string body (after the opening quote), returning the decoded
content and the input after the closing quote.  Surrogate escape values are
rejected (CPython combines pairs; this encoder never produces them). -/
def parseStringAux : List Char → Option (List Char × List Char)
  | [] => none
  | c :: cs =>
    if c = quoteC then some ([], cs)
    else if c = bslashC then
      match cs with
      | [] => none
      | e :: cs2 =>
        if e = quoteC then (parseStringAux cs2).map (fun p => (quoteC :: p.1, p.2))
        else if e = bslashC then (parseStringAux cs2).map (fun p => (bslashC :: p.1, p.2))
        else if e = '/' then (parseStringAux cs2).map (fun p => ('/' :: p.1, p.2))
        else if e = 'b' then (parseStringAux cs2).map (fun p => (Char.ofNat 8 :: p.1, p.2))
        else if e = 't' then (parseStringAux cs2).map (fun p => (Char.ofNat 9 :: p.1, p.2))
        else if e = 'n' then (parseStringAux cs2).map (fun p => (Char.ofNat 10 :: p.1, p.2))
        else if e = 'f' then (parseStringAux cs2).map (fun p => (Char.ofNat 12 :: p.1, p.2))
        else if e = 'r' then (parseStringAux cs2).map (fun p => (Char.ofNat 13 :: p.1, p.2))
        else if e = 'u' then
          match cs2 with
          | h1 :: h2 :: h3 :: h4 :: cs3 =>
            if isHexDigit h1 ∧ isHexDigit h2 ∧ isHexDigit h3 ∧ isHexDigit h4 then
              let code := ((hexVal h1 * 16 + hexVal h2) * 16 + hexVal h3) * 16 + hexVal h4
              if code < 55296 then
                (parseStringAux cs3).map (fun p => (Char.ofNat code :: p.1, p.2))
              else none
            else none
          | _ => none
        else none
    else (parseStringAux cs).map (fun p => (c :: p.1, p.2))
termination_by structural l => l

/-- Parse a JSON string literal including its opening quote. -/
def parseJString : List Char → Option (List Char × List Char)
  | c :: cs => if c = quoteC then parseStringAux cs else none
  | [] => none

/-! ## JSON values: encoding and parsing -/
mutual
/-- `json.dumps` of a value (with the default separators); `none` when a
non-serialisable Python object occurs. -/
def encVal : JVal → Option (List Char)
  | .null => some ['n', 'u', 'l', 'l']
  | .bool true => some ['t', 'r', 'u', 'e']
  | .bool false => some ['f', 'a', 'l', 's', 'e']
  | .int i => some (encInt i)
  | .str s => some (encString s)
  | .arr xs => (encArr xs).map (fun l => '[' :: (l ++ [']']))
  | .obj kvs => (encObj kvs).map (fun l => lbraceC :: (l ++ [rbraceC]))
  | .pyobj _ => none
/-- Array elements joined by `", "`. -/
def encArr : List JVal → Option (List Char)
  | [] => some []
  | [x] => encVal x
  | x :: y :: xs =>
    match encVal x, encArr (y :: xs) with
    | some a, some b => some (a ++ (',' :: ' ' :: b))
    | _, _ => none
/-- Object entries `"key": value` joined by `", "`. -/
def encObj : List (String × JVal) → Option (List Char)
  | [] => some []
  | [(k, v)] => (encVal v).map (fun ev => encString k ++ (':' :: ' ' :: ev))
  | (k, v) :: kv2 :: kvs =>
    match encVal v, encObj (kv2 :: kvs) with
    | some ev, some b =>
      some (encString k ++ (':' :: ' ' :: ev) ++ (',' :: ' ' :: b))
    | _, _ => none
end

/-- `json.dumps`, at `String` level. -/
def dumps (v : JVal) : Option String := (encVal v).map (fun l => ⟨l⟩)

mutual
/-- Parser fuel sufficient for a value. -/
def sizeVal : JVal → ℕ
  | .arr [] => 1
  | .arr (x :: xs) => 1 + sizeArrL (x :: xs)
  | .obj [] => 1
  | .obj (kv :: kvs) => 1 + sizeObjL (kv :: kvs)
  | _ => 1
def sizeArrL : List JVal → ℕ
  | [] => 0
  | x :: xs => 1 + max (sizeVal x) (sizeArrL xs)
def sizeObjL : List (String × JVal) → ℕ
  | [] => 0
  | (_, v) :: kvs => 1 + max (sizeVal v) (sizeObjL kvs)
end

mutual
/-- One JSON value (`json.loads` grammar, integer numbers). -/
def parseVal : ℕ → List Char → Option (JVal × List Char)
  | 0, _ => none
  | fuel + 1, cs =>
    match skipWs cs with
    | [] => none
    | c :: rest =>
      if c = quoteC then
        (parseStringAux rest).map (fun p => (JVal.str ⟨p.1⟩, p.2))
      else if c = '[' then
        match skipWs rest with
        | c2 :: rest2 =>
          if c2 = ']' then some (JVal.arr [], rest2)
          else (parseArrLoop fuel (c2 :: rest2)).map (fun p => (JVal.arr p.1, p.2))
        | [] => none
      else if c = lbraceC then
        match skipWs rest with
        | c2 :: rest2 =>
          if c2 = rbraceC then some (JVal.obj [], rest2)
          else (parseObjLoop fuel (c2 :: rest2)).map (fun p => (JVal.obj p.1, p.2))
        | [] => none
      else if c = 'n' then
        match rest with
        | c1 :: c2 :: c3 :: rest2 =>
          if c1 = 'u' ∧ c2 = 'l' ∧ c3 = 'l' then some (JVal.null, rest2) else none
        | _ => none
      else if c = 't' then
        match rest with
        | c1 :: c2 :: c3 :: rest2 =>
          if c1 = 'r' ∧ c2 = 'u' ∧ c3 = 'e' then some (JVal.bool true, rest2)
          else none
        | _ => none
      else if c = 'f' then
        match rest with
        | c1 :: c2 :: c3 :: c4 :: rest2 =>
          if c1 = 'a' ∧ c2 = 'l' ∧ c3 = 's' ∧ c4 = 'e' then
            some (JVal.bool false, rest2)
          else none
        | _ => none
      else if c = Char.ofNat 45 ∨ c.isDigit then
        (parseInt (c :: rest)).map (fun p => (JVal.int p.1, p.2))
      else none
/-- Elements of a nonempty array, consuming the closing bracket. -/
def parseArrLoop : ℕ → List Char → Option (List JVal × List Char)
  | 0, _ => none
  | fuel + 1, cs => do
    let (v, r) ← parseVal fuel cs
    match skipWs r with
    | c :: r2 =>
      if c = ',' then (parseArrLoop fuel (skipWs r2)).map (fun p => (v :: p.1, p.2))
      else if c = ']' then some ([v], r2)
      else none
    | [] => none
/-- Entries of a nonempty object, consuming the closing brace. -/
def parseObjLoop : ℕ → List Char → Option (List (String × JVal) × List Char)
  | 0, _ => none
  | fuel + 1, cs =>
    match cs with
    | c :: rest =>
      if c = quoteC then do
        let (k, r1) ← parseStringAux rest
        match skipWs r1 with
        | c2 :: r2 =>
          if c2 = ':' then do
            let (v, r3) ← parseVal fuel (skipWs r2)
            match skipWs r3 with
            | c3 :: r4 =>
              if c3 = ',' then
                (parseObjLoop fuel (skipWs r4)).map (fun p => ((⟨k⟩, v) :: p.1, p.2))
              else if c3 = rbraceC then some ([(⟨k⟩, v)], r4)
              else none
            | [] => none
          else none
        | [] => none
      else none
    | [] => none
end

/-- `json.loads`: parse a whole document, allowing surrounding whitespace. -/
def loads (s : String) : Option JVal :=
  match parseVal (s.data.length + 1) s.data with
  | some (v, r) => if skipWs r = [] then some v else none
  | none => none

/-- After a complete JSON value the input may continue only with a
non-digit (so the number parser cannot overrun). -/
def RestOk (rest : List Char) : Prop :=
  ∀ c, rest.head? = some c → c.isDigit = false

/-! ## `datetime.fromisoformat`

The persistence layer stores `datetime`s via `isoformat()` and restores them
with `datetime.fromisoformat`; the parser below handles exactly the shapes
`isoformat()` emits (date, optional `T`-separated time, optional `.ffffff`),
with the constructor range checks folded in, and fails on anything else
(Python raises `ValueError`, which the callers catch). -/
/-- Two decimal digits. -/
def rd2 : List Char → Option (ℕ × List Char)
  | a :: b :: rest =>
    if a.isDigit ∧ b.isDigit then some (charVal a * 10 + charVal b, rest) else none
  | _ => none

/-- Four decimal digits. -/
def rd4 : List Char → Option (ℕ × List Char)
  | a :: b :: c :: d :: rest =>
    if a.isDigit ∧ b.isDigit ∧ c.isDigit ∧ d.isDigit then
      some (charVal a * 1000 + charVal b * 100 + charVal c * 10 + charVal d, rest)
    else none
  | _ => none

/-- Six decimal digits. -/
def rd6 : List Char → Option (ℕ × List Char)
  | a :: b :: c :: d :: e :: f :: rest =>
    if a.isDigit ∧ b.isDigit ∧ c.isDigit ∧ d.isDigit ∧ e.isDigit ∧ f.isDigit then
      some (charVal a * 100000 + charVal b * 10000 + charVal c * 1000
        + charVal d * 100 + charVal e * 10 + charVal f, rest)
    else none
  | _ => none

/-- One required literal character. -/
def expectC (c : Char) : List Char → Option (List Char)
  | d :: rest => if d = c then some rest else none
  | _ => none

/-- The `datetime(...)` constructor: range-checks the fields. -/
def mkDateTime (y mo d h mi s us : ℕ) : Option DateTime :=
  let t : DateTime := ⟨y, mo, d, h, mi, s, us⟩
  if t.Valid then some t else none

def fromisoformatL (l : List Char) : Option DateTime := do
  let (y, r1) ← rd4 l
  let r2 ← expectC (Char.ofNat 45) r1
  let (mo, r3) ← rd2 r2
  let r4 ← expectC (Char.ofNat 45) r3
  let (d, r5) ← rd2 r4
  match r5 with
  | [] => mkDateTime y mo d 0 0 0 0
  | sep :: r6 =>
    if sep = Char.ofNat 84 then do
      let (h, r7) ← rd2 r6
      let r8 ← expectC (Char.ofNat 58) r7
      let (mi, r9) ← rd2 r8
      let r10 ← expectC (Char.ofNat 58) r9
      let (s, r11) ← rd2 r10
      match r11 with
      | [] => mkDateTime y mo d h mi s 0
      | dot :: r12 =>
        if dot = Char.ofNat 46 then do
          let (us, r13) ← rd6 r12
          match r13 with
          | [] => mkDateTime y mo d h mi s us
          | _ => none
        else none
    else none

/-- `datetime.fromisoformat`. -/
def fromisoformat (s : String) : Option DateTime := fromisoformatL s.data

/-! ## `MemorySystem` persistence (`prompt_researcher.py`)

The SQLite tables become lists of typed rows in insertion (rowid) order.
`projects` has `project_id` as primary key, so `INSERT OR REPLACE` deletes
any existing row with that key and appends the new one; `search_results`
has an autoincrement key and plain `INSERT`s append.  Each method opens its
own connection and commits once at the end, so an exception inside
`save_search_results` (only `json.dumps` of a non-serialisable metadata
object can raise here) rolls back the whole call.  `get_project` /
`get_search_results` catch decoding exceptions (`ValueError` from
`fromisoformat`, `JSONDecodeError`) and return `None` / `[]`; a stored
`sources` document that is valid JSON but not a string array cannot be
produced by `save_project` and is collapsed into the failure case by this
typed embedding. -/
/-- `prompt_researcher.SearchResult` (the persistence-layer dataclass). -/
structure PRSearchResult where
  title : String
  url : String
  content : String
  source : String
  timestamp : DateTime
  metadata : JVal
  relevance_score : ℚ

/-- `prompt_researcher.ResearchProject`. -/
structure ResearchProject where
  project_id : String
  query : String
  description : String
  sources : List String
  status : String
  created_at : DateTime
  updated_at : DateTime
  results_count : ℤ
  deriving DecidableEq

/-- A row of the `projects` table. -/
structure ProjectRow where
  project_id : String
  query : String
  description : String
  sources : String
  status : String
  created_at : String
  updated_at : String
  results_count : ℤ
  deriving DecidableEq

/-- A row of the `search_results` table (autoincrement id elided). -/
structure ResultRow where
  project_id : String
  title : String
  url : String
  content : String
  source : String
  timestamp : String
  metadata : String
  relevance_score : ℚ
  deriving DecidableEq

/-- The database contents. -/
structure DB where
  projects : List ProjectRow
  search_results : List ResultRow
  deriving DecidableEq

/-- `json.dumps` of a Python list of strings (always serialisable). -/
def strListJson (l : List String) : String :=
  (dumps (JVal.arr (l.map JVal.str))).getD ""

/-- `MemorySystem.save_project`: `INSERT OR REPLACE` keyed on `project_id`. -/
def save_project (p : ResearchProject) (db : DB) : DB × Bool :=
  let row : ProjectRow :=
    ⟨p.project_id, p.query, p.description, strListJson p.sources, p.status,
      p.created_at.isoformat, p.updated_at.isoformat, p.results_count⟩
  (⟨db.projects.filter (fun r => decide (¬ r.project_id = p.project_id)) ++ [row],
    db.search_results⟩, true)

/-- Decode a JSON array of strings (the type `save_project` stores). -/
def strsOf : List JVal → Option (List String)
  | [] => some []
  | .str s :: rest => (strsOf rest).map (fun l => s :: l)
  | _ => none

def asStrList : JVal → Option (List String)
  | .arr xs => strsOf xs
  | _ => none

/-- `MemorySystem.get_project`. -/
def get_project (pid : String) (db : DB) : Option ResearchProject :=
  match db.projects.find? (fun r => decide (r.project_id = pid)) with
  | none => none
  | some row => do
    let sv ← loads row.sources
    let sources ← asStrList sv
    let c ← fromisoformat row.created_at
    let u ← fromisoformat row.updated_at
    some ⟨row.project_id, row.query, row.description, sources, row.status,
      c, u, row.results_count⟩

/-- One loop iteration of `save_search_results`: `json.dumps(metadata)` is
the only fallible step. -/
def encodeResultRow (pid : String) (r : PRSearchResult) : Option ResultRow :=
  (dumps r.metadata).map (fun m =>
    ⟨pid, r.title, r.url, r.content, r.source, r.timestamp.isoformat, m,
      r.relevance_score⟩)

/-- Exception-propagating loop over a list (first failure aborts). -/
def mapMO (f : α → Option β) : List α → Option (List β)
  | [] => some []
  | a :: rest =>
    match f a, mapMO f rest with
    | some b, some bs => some (b :: bs)
    | _, _ => none

/-- `MemorySystem.save_search_results`: inserts all rows and commits, or
rolls back on the first exception and returns `False`. -/
def save_search_results (pid : String) (results : List PRSearchResult)
    (db : DB) : DB × Bool :=
  match mapMO (encodeResultRow pid) results with
  | some rows => (⟨db.projects, db.search_results ++ rows⟩, true)
  | none => (db, false)

/-- Rebuild one `SearchResult` from its row. -/
def decodeResultRow (r : ResultRow) : Option PRSearchResult := do
  let ts ← fromisoformat r.timestamp
  let md ← loads r.metadata
  some ⟨r.title, r.url, r.content, r.source, ts, md, r.relevance_score⟩

/-- `MemorySystem.get_search_results`: all rows of the project, decoded;
any exception yields `[]`. -/
def get_search_results (pid : String) (db : DB) : List PRSearchResult :=
  match mapMO decodeResultRow
      (db.search_results.filter (fun r => decide (r.project_id = pid))) with
  | some rs => rs
  | none => []

def c4DT : DateTime := ⟨2024, 5, 17, 10, 30, 5, 123456⟩

def c4Proj : ResearchProject :=
  ⟨"p1", "prompt engineering", "a project", ["github", "reddit"], "active",
    c4DT, ⟨2024, 5, 18, 0, 0, 0, 0⟩, 3⟩

def c4Res : PRSearchResult :=
  ⟨"Prompt guide", "https://x", "content", "github", c4DT,
    JVal.obj [("stars", JVal.int 42)], 7 / 10⟩

def c4Db : DB := ⟨[], []⟩

def c7Bad : PRSearchResult :=
  ⟨"opaque", "https://y", "content", "web", c4DT, JVal.pyobj 0, 0⟩

/-! ## Theorems -/

/-! ## Bounds on the factor scores -/
theorem exceptOk_bind {α β : Type} (a : α) (f : α → Except PyErr β) :
    (Except.ok a >>= f) = f a := rfl

theorem exceptErr_bind {α β : Type} (e : PyErr) (f : α → Except PyErr β) :
    ((Except.error e : Except PyErr α) >>= f) = Except.error e := rfl

theorem exceptPure (a : α) : (pure a : Except PyErr α) = Except.ok a := rfl

theorem min_one_mul_bounds (x w : ℚ) (hx : 0 ≤ x) (hw : 0 ≤ w) :
    0 ≤ min x 1 * w ∧ min x 1 * w ≤ w := by
  constructor
  · exact mul_nonneg (le_min hx zero_le_one) hw
  · calc min x 1 * w ≤ 1 * w := mul_le_mul_of_nonneg_right (min_le_right x 1) hw
      _ = w := one_mul w

theorem relevance_ok_bounds (t c q : String) (h : pySplit (pyLower q) ≠ []) :
    ∃ r, calculate_relevance_score t c q = Except.ok r ∧ 0 ≤ r ∧ r ≤ 1 := by
  have hlen : ¬ ((pySplit (pyLower q)).length = 0) := by
    simpa [List.length_eq_zero] using h
  have hn : (0 : ℚ) ≤ ((pySplit (pyLower q)).length : ℚ) := Nat.cast_nonneg _
  unfold calculate_relevance_score
  simp only [hlen, if_false, ite_false]
  refine ⟨_, rfl, ?_, min_le_right _ _⟩
  have h1 : (0 : ℚ) ≤
      ((((pySplit (pyLower q)).filter (fun x => strContains (pyLower t) x)).length : ℚ) /
        ((pySplit (pyLower q)).length : ℚ)) := by positivity
  have h2 : (0 : ℚ) ≤
      ((((pySplit (pyLower q)).filter (fun x => strContains (pyLower c) x)).length : ℚ) /
        ((pySplit (pyLower q)).length : ℚ)) := by positivity
  have h3 := min_one_mul_bounds _ 2 h1 (by norm_num)
  have h4 : (0 : ℚ) ≤ min ((((pySplit (pyLower q)).filter
      (fun x => strContains (pyLower c) x)).length : ℚ) /
        ((pySplit (pyLower q)).length : ℚ)) 1 := le_min h2 zero_le_one
  refine le_min (by positivity) zero_le_one

theorem numOkB_spec (md : List (String × JVal)) (k : String) (h : numOkB md k = true) :
    ∃ n : ℤ, getNum md k = Except.ok n ∧ 0 ≤ n := by
  unfold numOkB at h
  cases hg : getNum md k with
  | ok n => rw [hg] at h; exact ⟨n, rfl, of_decide_eq_true h⟩
  | error e => rw [hg] at h; cases h

theorem sourceAuthority_bounds (src : String) :
    1 / 2 ≤ sourceAuthority src ∧ sourceAuthority src ≤ 19 / 20 := by
  unfold sourceAuthority
  split_ifs <;> norm_num

theorem authority_ok_bounds (src : String) (md : List (String × JVal))
    (h : MetaNonneg md) :
    ∃ a, calculate_authority_score src md = Except.ok a ∧ 0 ≤ a ∧ a ≤ 1 := by
  obtain ⟨stars, hst, hst0⟩ := numOkB_spec md "stars" (h _ (by simp [scoringKeys]))
  obtain ⟨forks, hfk, hfk0⟩ := numOkB_spec md "forks" (h _ (by simp [scoringKeys]))
  obtain ⟨score, hsc, hsc0⟩ := numOkB_spec md "score" (h _ (by simp [scoringKeys]))
  obtain ⟨ncom, hnc, hnc0⟩ := numOkB_spec md "num_comments" (h _ (by simp [scoringKeys]))
  obtain ⟨hb1, hb2⟩ := sourceAuthority_bounds src
  have hgb : sourceAuthority "github" = 9 / 10 := by simp [sourceAuthority]
  have hrb : sourceAuthority "reddit" = 6 / 10 := by simp [sourceAuthority]
  unfold calculate_authority_score
  by_cases hg : src = "github"
  · simp only [hg, if_true, ite_true, hst, hfk, exceptOk_bind, exceptPure, hgb]
    refine ⟨_, rfl, ?_, min_le_right _ _⟩
    have b1 := min_one_mul_bounds ((stars : ℚ) / 1000) (3 / 10) (by positivity) (by norm_num)
    have b2 := min_one_mul_bounds ((forks : ℚ) / 100) (2 / 10) (by positivity) (by norm_num)
    refine le_min (by linarith) zero_le_one
  · by_cases hr : src = "reddit"
    · simp only [hg, hr, if_false, if_true, ite_true, ite_false, hsc, hnc,
        exceptOk_bind, exceptPure, hrb]
      refine ⟨_, rfl, ?_, min_le_right _ _⟩
      have b1 := min_one_mul_bounds ((score : ℚ) / 100) (2 / 10) (by positivity) (by norm_num)
      have b2 := min_one_mul_bounds ((ncom : ℚ) / 50) (1 / 10) (by positivity) (by norm_num)
      refine le_min (by linarith) zero_le_one
    · simp only [hg, hr, if_false, ite_false, exceptPure]
      exact ⟨_, rfl, by linarith, by linarith⟩

theorem engagement_ok_bounds (src : String) (md : List (String × JVal))
    (h : MetaNonneg md) :
    ∃ e, calculate_engagement_score src md = Except.ok e ∧ 0 ≤ e ∧ e ≤ 1 := by
  obtain ⟨stars, hst, hst0⟩ := numOkB_spec md "stars" (h _ (by simp [scoringKeys]))
  obtain ⟨forks, hfk, hfk0⟩ := numOkB_spec md "forks" (h _ (by simp [scoringKeys]))
  obtain ⟨wat, hwa, hwa0⟩ := numOkB_spec md "watchers" (h _ (by simp [scoringKeys]))
  obtain ⟨score, hsc, hsc0⟩ := numOkB_spec md "score" (h _ (by simp [scoringKeys]))
  obtain ⟨ncom, hnc, hnc0⟩ := numOkB_spec md "num_comments" (h _ (by simp [scoringKeys]))
  obtain ⟨views, hvw, hvw0⟩ := numOkB_spec md "views" (h _ (by simp [scoringKeys]))
  obtain ⟨likes, hlk, hlk0⟩ := numOkB_spec md "likes" (h _ (by simp [scoringKeys]))
  unfold calculate_engagement_score
  by_cases hg : src = "github"
  · simp only [hg, if_true, ite_true, hst, hfk, hwa, exceptOk_bind, exceptPure]
    have b1 := min_one_mul_bounds ((stars : ℚ) / 500) (5 / 10) (by positivity) (by norm_num)
    have b2 := min_one_mul_bounds ((forks : ℚ) / 100) (3 / 10) (by positivity) (by norm_num)
    have b3 := min_one_mul_bounds ((wat : ℚ) / 50) (2 / 10) (by positivity) (by norm_num)
    exact ⟨_, rfl, by linarith, by linarith⟩
  · by_cases hr : src = "reddit"
    · simp only [hg, hr, if_false, if_true, ite_true, ite_false, hsc, hnc,
        exceptOk_bind, exceptPure]
      have b1 := min_one_mul_bounds ((score : ℚ) / 50) (6 / 10) (by positivity) (by norm_num)
      have b2 := min_one_mul_bounds ((ncom : ℚ) / 25) (4 / 10) (by positivity) (by norm_num)
      exact ⟨_, rfl, by linarith, by linarith⟩
    · by_cases hy : src = "youtube"
      · simp only [hg, hr, hy, if_false, if_true, ite_true, ite_false, hvw, hlk,
          exceptOk_bind, exceptPure]
        have b1 := min_one_mul_bounds ((views : ℚ) / 10000) (7 / 10) (by positivity) (by norm_num)
        have b2 := min_one_mul_bounds ((likes : ℚ) / 100) (3 / 10) (by positivity) (by norm_num)
        exact ⟨_, rfl, by linarith, by linarith⟩
      · simp only [hg, hr, hy, if_false, ite_false, exceptPure]
        exact ⟨_, rfl, by norm_num, by norm_num⟩

theorem completeness_bounds (content : String) (md : List (String × JVal)) :
    0 ≤ calculate_completeness_score content md ∧
      calculate_completeness_score content md ≤ 1 := by
  unfold calculate_completeness_score
  have b1 := min_one_mul_bounds (((pyStrip content).length : ℚ) / 1000) (7 / 10)
    (by positivity) (by norm_num)
  have b2 := min_one_mul_bounds ((metadataRichness md : ℚ) / 10) (3 / 10)
    (by positivity) (by norm_num)
  exact ⟨by linarith, by linarith⟩

theorem recencyScoreOfAge_bounds (a : ℤ) :
    0 ≤ recencyScoreOfAge a ∧ recencyScoreOfAge a ≤ 1 := by
  unfold recencyScoreOfAge
  split_ifs <;> norm_num

theorem recency_bounds (s : String) (now : ℤ) :
    0 ≤ calculate_recency_score s now ∧ calculate_recency_score s now ≤ 1 := by
  unfold calculate_recency_score
  cases parseTimestamp s with
  | none => norm_num
  | some t => exact recencyScoreOfAge_bounds _

unseal Rat.mul Rat.inv Rat.add Rat.sub in
/-- C1, counterexample: for a reddit result whose metadata `score` is a
(large) negative int — which the Reddit adapter can produce, since Reddit
post scores may be negative — the overall score is far below 0, so neither
"each factor score lies in [0, 1]" nor "the overall score lies in [0, 1]"
holds for every search result, even with a nonempty query. -/
theorem c1_counterexample :
    pySplit (pyLower "x") = ["x"] ∧
    calculate_overall_score c1CEresult "x" c1CEnow = Except.ok (-2299447 / 1000 : ℚ) ∧
    ¬ (0 ≤ (-2299447 / 1000 : ℚ) ∧ (-2299447 / 1000 : ℚ) ≤ 1) := by
  refine ⟨by decide, by rfl, ?_⟩
  intro ⟨h, _⟩
  norm_num at h

/-- C1 (amended): for every search result whose query has at least one
whitespace-separated term, `calculate_overall_score` returns exactly the
weighted sum of the five factor scores with weights 0.30, 0.25, 0.20, 0.15,
0.10; and when the numeric metadata fields read by the scoring code are
nonnegative ints (or absent), each factor score lies in [0, 1] and hence the
overall score lies in [0, 1]. -/
theorem c1_overall_weighted_sum (result : SearchResult) (query : String) (now : ℤ)
    (hq : pySplit (pyLower query) ≠ []) (hmd : MetaNonneg result.metadata) :
    ∃ rel auth eng,
      calculate_relevance_score result.title result.content query = Except.ok rel ∧
      calculate_authority_score result.source result.metadata = Except.ok auth ∧
      calculate_engagement_score result.source result.metadata = Except.ok eng ∧
      calculate_overall_score result query now =
        Except.ok (rel * (30 / 100) + auth * (25 / 100)
          + calculate_recency_score result.timestamp.isoformat now * (20 / 100)
          + eng * (15 / 100)
          + calculate_completeness_score result.content result.metadata * (10 / 100)) ∧
      (0 ≤ rel ∧ rel ≤ 1) ∧ (0 ≤ auth ∧ auth ≤ 1) ∧
      (0 ≤ calculate_recency_score result.timestamp.isoformat now ∧
        calculate_recency_score result.timestamp.isoformat now ≤ 1) ∧
      (0 ≤ eng ∧ eng ≤ 1) ∧
      (0 ≤ calculate_completeness_score result.content result.metadata ∧
        calculate_completeness_score result.content result.metadata ≤ 1) ∧
      (∀ v, calculate_overall_score result query now = Except.ok v →
        0 ≤ v ∧ v ≤ 1) := by
  obtain ⟨rel, hr, hr0, hr1⟩ := relevance_ok_bounds result.title result.content query hq
  obtain ⟨auth, ha, ha0, ha1⟩ := authority_ok_bounds result.source result.metadata hmd
  obtain ⟨eng, he, he0, he1⟩ := engagement_ok_bounds result.source result.metadata hmd
  obtain ⟨hre0, hre1⟩ := recency_bounds result.timestamp.isoformat now
  obtain ⟨hc0, hc1⟩ := completeness_bounds result.content result.metadata
  have hov : calculate_overall_score result query now =
      Except.ok (rel * (30 / 100) + auth * (25 / 100)
        + calculate_recency_score result.timestamp.isoformat now * (20 / 100)
        + eng * (15 / 100)
        + calculate_completeness_score result.content result.metadata * (10 / 100)) := by
    unfold calculate_overall_score
    simp only [hr, ha, he, exceptOk_bind, exceptPure]
  refine ⟨rel, auth, eng, hr, ha, he, hov, ⟨hr0, hr1⟩, ⟨ha0, ha1⟩, ⟨hre0, hre1⟩,
    ⟨he0, he1⟩, ⟨hc0, hc1⟩, ?_⟩
  intro v hv
  rw [hov] at hv
  set rec := calculate_recency_score result.timestamp.isoformat now
  set comp := calculate_completeness_score result.content result.metadata
  injection hv with hveq
  subst hveq
  have t1 : rel * (30 / 100) ≤ 30 / 100 := by
    calc rel * (30 / 100) ≤ 1 * (30 / 100) :=
          mul_le_mul_of_nonneg_right hr1 (by norm_num)
      _ = 30 / 100 := one_mul _
  have t2 : auth * (25 / 100) ≤ 25 / 100 := by
    calc auth * (25 / 100) ≤ 1 * (25 / 100) :=
          mul_le_mul_of_nonneg_right ha1 (by norm_num)
      _ = 25 / 100 := one_mul _
  have t3 : rec * (20 / 100) ≤ 20 / 100 := by
    calc rec * (20 / 100) ≤ 1 * (20 / 100) :=
          mul_le_mul_of_nonneg_right hre1 (by norm_num)
      _ = 20 / 100 := one_mul _
  have t4 : eng * (15 / 100) ≤ 15 / 100 := by
    calc eng * (15 / 100) ≤ 1 * (15 / 100) :=
          mul_le_mul_of_nonneg_right he1 (by norm_num)
      _ = 15 / 100 := one_mul _
  have t5 : comp * (10 / 100) ≤ 10 / 100 := by
    calc comp * (10 / 100) ≤ 1 * (10 / 100) :=
          mul_le_mul_of_nonneg_right hc1 (by norm_num)
      _ = 10 / 100 := one_mul _
  have s1 : 0 ≤ rel * (30 / 100) := mul_nonneg hr0 (by norm_num)
  have s2 : 0 ≤ auth * (25 / 100) := mul_nonneg ha0 (by norm_num)
  have s3 : 0 ≤ rec * (20 / 100) := mul_nonneg hre0 (by norm_num)
  have s4 : 0 ≤ eng * (15 / 100) := mul_nonneg he0 (by norm_num)
  have s5 : 0 ≤ comp * (10 / 100) := mul_nonneg hc0 (by norm_num)
  constructor <;> linarith

/-- Witness for C1 (amended) at a concrete GitHub result. -/
theorem c1_witness :
    ∃ rel auth eng,
      calculate_relevance_score "x" "" "x" = Except.ok rel ∧
      calculate_authority_score "github" [("stars", JVal.int 100)] = Except.ok auth ∧
      calculate_engagement_score "github" [("stars", JVal.int 100)] = Except.ok eng ∧
      calculate_overall_score
          ⟨"x", "", "", "github", ⟨2024, 1, 1, 0, 0, 0, 0⟩, [("stars", JVal.int 100)], 0⟩
          "x" 0 =
        Except.ok (rel * (30 / 100) + auth * (25 / 100)
          + calculate_recency_score
              (DateTime.isoformat ⟨2024, 1, 1, 0, 0, 0, 0⟩) 0 * (20 / 100)
          + eng * (15 / 100)
          + calculate_completeness_score "" [("stars", JVal.int 100)] * (10 / 100)) ∧
      (0 ≤ rel ∧ rel ≤ 1) ∧ (0 ≤ auth ∧ auth ≤ 1) ∧
      (0 ≤ calculate_recency_score (DateTime.isoformat ⟨2024, 1, 1, 0, 0, 0, 0⟩) 0 ∧
        calculate_recency_score (DateTime.isoformat ⟨2024, 1, 1, 0, 0, 0, 0⟩) 0 ≤ 1) ∧
      (0 ≤ eng ∧ eng ≤ 1) ∧
      (0 ≤ calculate_completeness_score "" [("stars", JVal.int 100)] ∧
        calculate_completeness_score "" [("stars", JVal.int 100)] ≤ 1) ∧
      (∀ v, calculate_overall_score
          ⟨"x", "", "", "github", ⟨2024, 1, 1, 0, 0, 0, 0⟩, [("stars", JVal.int 100)], 0⟩
          "x" 0 = Except.ok v → 0 ≤ v ∧ v ≤ 1) :=
  c1_overall_weighted_sum
    ⟨"x", "", "", "github", ⟨2024, 1, 1, 0, 0, 0, 0⟩, [("stars", JVal.int 100)], 0⟩
    "x" 0 (by decide) (by decide)

/-! ## Claim C8 -/
/-- C8: when `query.lower().split()` is empty, `calculate_relevance_score`
(and hence `calculate_overall_score`) raises `ZeroDivisionError`; when the
query has at least one term the relevance score lies in [0, 1]. -/
theorem c8_zero_division (result : SearchResult) (query : String) (now : ℤ) :
    (pySplit (pyLower query) = [] →
      calculate_relevance_score result.title result.content query =
        Except.error PyErr.zeroDivision ∧
      calculate_overall_score result query now = Except.error PyErr.zeroDivision) ∧
    (pySplit (pyLower query) ≠ [] →
      ∃ r, calculate_relevance_score result.title result.content query = Except.ok r ∧
        0 ≤ r ∧ r ≤ 1) := by
  constructor
  · intro h
    have hrel : calculate_relevance_score result.title result.content query =
        Except.error PyErr.zeroDivision := by
      unfold calculate_relevance_score
      simp [h]
    refine ⟨hrel, ?_⟩
    unfold calculate_overall_score
    simp only [hrel, exceptErr_bind]
  · exact relevance_ok_bounds _ _ _

/-- Witness for C8: a whitespace-only query raises, a one-word query scores. -/
theorem c8_witness :
    calculate_relevance_score "t" "c" " " = Except.error PyErr.zeroDivision ∧
    calculate_overall_score ⟨"t", "", "c", "web", ⟨2024, 1, 1, 0, 0, 0, 0⟩, [], 0⟩ " " 0 =
      Except.error PyErr.zeroDivision ∧
    ∃ r, calculate_relevance_score "t" "c" "hello" = Except.ok r ∧ 0 ≤ r ∧ r ≤ 1 := by
  refine ⟨?_, ?_, ?_⟩
  · exact ((c8_zero_division ⟨"t", "", "c", "web", ⟨2024, 1, 1, 0, 0, 0, 0⟩, [], 0⟩
      " " 0).1 (by decide)).1
  · exact ((c8_zero_division ⟨"t", "", "c", "web", ⟨2024, 1, 1, 0, 0, 0, 0⟩, [], 0⟩
      " " 0).1 (by decide)).2
  · exact (c8_zero_division ⟨"t", "", "c", "web", ⟨2024, 1, 1, 0, 0, 0, 0⟩, [], 0⟩
      "hello" 0).2 (by decide)

/-! ## Claim C6 -/
theorem recencyScoreOfAge_antitone (a b : ℤ) (hab : b ≤ a) :
    recencyScoreOfAge a ≤ recencyScoreOfAge b := by
  unfold recencyScoreOfAge
  split_ifs <;> first | (exfalso; omega) | norm_num

/-- C6: `calculate_recency_score` is monotone in age — of two parsing
timestamps (scored against the same `now`) the older one never scores
higher — the brackets are exactly 1.0 / 0.8 / 0.6 / 0.4 / 0.2 by age, and
every non-parsing string gets the default 0.5. -/
theorem c6_recency_monotone (s1 s2 : String) (t1 t2 : DateTime) (now : ℤ)
    (h1 : parseTimestamp s1 = some t1) (h2 : parseTimestamp s2 = some t2)
    (hold : t1.toMicro ≤ t2.toMicro) :
    calculate_recency_score s1 now ≤ calculate_recency_score s2 now ∧
    calculate_recency_score s1 now = recencyScoreOfAge (now - t1.toMicro) ∧
    (∀ s : String, parseTimestamp s = none → calculate_recency_score s now = 1 / 2) ∧
    (∀ a : ℤ, recencyScoreOfAge a =
      if a ≤ 30 * 86400000000 then 1
      else if a ≤ 90 * 86400000000 then 8 / 10
      else if a ≤ 365 * 86400000000 then 6 / 10
      else if a ≤ 730 * 86400000000 then 4 / 10
      else 2 / 10) := by
  refine ⟨?_, ?_, ?_, fun a => rfl⟩
  · unfold calculate_recency_score
    rw [h1, h2]
    exact recencyScoreOfAge_antitone _ _ (by omega)
  · unfold calculate_recency_score
    rw [h1]
  · intro s hs
    unfold calculate_recency_score
    rw [hs]

/-- Witness for C6 at two concrete timestamp strings. -/
theorem c6_witness :
    calculate_recency_score "2020-01-01" 63800000000000000 ≤
      calculate_recency_score "2024-06-01T12:00:00" 63800000000000000 ∧
    calculate_recency_score "2020-01-01" 63800000000000000 =
      recencyScoreOfAge (63800000000000000 - (DateTime.mk 2020 1 1 0 0 0 0).toMicro) ∧
    (∀ s : String, parseTimestamp s = none →
      calculate_recency_score s 63800000000000000 = 1 / 2) ∧
    (∀ a : ℤ, recencyScoreOfAge a =
      if a ≤ 30 * 86400000000 then 1
      else if a ≤ 90 * 86400000000 then 8 / 10
      else if a ≤ 365 * 86400000000 then 6 / 10
      else if a ≤ 730 * 86400000000 then 4 / 10
      else 2 / 10) :=
  c6_recency_monotone "2020-01-01" "2024-06-01T12:00:00"
    ⟨2020, 1, 1, 0, 0, 0, 0⟩ ⟨2024, 6, 1, 12, 0, 0, 0⟩ 63800000000000000
    (by decide) (by decide) (by decide)

theorem insertSorted_perm (le : α → α → Bool) (a : α) (l : List α) :
    List.Perm (insertSorted le a l) (a :: l) := by
  induction l with
  | nil => simp [insertSorted]
  | cons b l ih =>
    unfold insertSorted
    split
    · exact List.Perm.refl _
    · calc
        List.Perm (b :: insertSorted le a l) (b :: a :: l) := List.Perm.cons b ih
        List.Perm _ (a :: b :: l) := List.Perm.swap a b l

theorem sortStable_perm (le : α → α → Bool) (l : List α) :
    List.Perm (sortStable le l) l := by
  induction l with
  | nil => exact List.Perm.refl _
  | cons a l ih =>
    exact (insertSorted_perm le a (sortStable le l)).trans (List.Perm.cons a ih)

theorem mem_insertSorted (le : α → α → Bool) (a x : α) (l : List α) :
    x ∈ insertSorted le a l ↔ x = a ∨ x ∈ l := by
  rw [(insertSorted_perm le a l).mem_iff]
  simp

theorem insertSorted_pairwise (le : α → α → Bool)
    (htrans : ∀ a b c, le a b = true → le b c = true → le a c = true)
    (htot : ∀ a b, le a b = false → le b a = true)
    (a : α) (l : List α) (hl : l.Pairwise (fun x y => le x y = true)) :
    (insertSorted le a l).Pairwise (fun x y => le x y = true) := by
  induction l with
  | nil => simp [insertSorted]
  | cons b l ih =>
    rw [List.pairwise_cons] at hl
    obtain ⟨hb, hl⟩ := hl
    unfold insertSorted
    by_cases h : le a b = true
    · simp only [h, if_true, ite_true]
      refine List.Pairwise.cons ?_ (List.Pairwise.cons hb hl)
      intro x hx
      rcases List.mem_cons.mp hx with rfl | hxl
      · exact h
      · exact htrans a b x h (hb x hxl)
    · simp only [h, if_false, ite_false]
      refine List.Pairwise.cons ?_ (ih hl)
      intro x hx
      rcases (mem_insertSorted le a x l).mp hx with rfl | hxl
      · exact htot x b (by simpa using h)
      · exact hb x hxl

theorem sortStable_pairwise (le : α → α → Bool)
    (htrans : ∀ a b c, le a b = true → le b c = true → le a c = true)
    (htot : ∀ a b, le a b = false → le b a = true)
    (l : List α) :
    (sortStable le l).Pairwise (fun x y => le x y = true) := by
  induction l with
  | nil => simp [sortStable]
  | cons a l ih => exact insertSorted_pairwise le htrans htot a _ ih

theorem sortStable_eq_of_perm (le : α → α → Bool)
    (htrans : ∀ a b c, le a b = true → le b c = true → le a c = true)
    (htot : ∀ a b, le a b = false → le b a = true)
    (hanti : ∀ a b, le a b = true → le b a = true → a = b)
    (l1 l2 : List α) (h : List.Perm l1 l2) :
    sortStable le l1 = sortStable le l2 := by
  haveI inst : IsAntisymm α (fun x y => le x y = true) := ⟨hanti⟩
  exact @List.eq_of_perm_of_sorted α (fun x y => le x y = true) inst _ _
    (((sortStable_perm le l1).trans h).trans (sortStable_perm le l2).symm)
    (sortStable_pairwise le htrans htot l1)
    (sortStable_pairwise le htrans htot l2)

theorem charListLe_total : ∀ a b : List Char,
    charListLe a b = false → charListLe b a = true := by
  intro a
  induction a with
  | nil => intro b h; simp [charListLe] at h
  | cons x xs ih =>
    intro b h
    cases b with
    | nil => simp [charListLe]
    | cons y ys =>
      unfold charListLe at h ⊢
      by_cases h1 : x.toNat < y.toNat
      · simp [h1] at h
      · by_cases h2 : y.toNat < x.toNat
        · simp [h2]
        · have h3 : ¬ x.toNat < y.toNat := h1
          simp [h1, h2] at h ⊢
          exact ih ys h

theorem charListLe_trans : ∀ a b c : List Char,
    charListLe a b = true → charListLe b c = true → charListLe a c = true := by
  intro a
  induction a with
  | nil => intro b c _ _; simp [charListLe]
  | cons x xs ih =>
    intro b c hab hbc
    cases b with
    | nil => simp [charListLe] at hab
    | cons y ys =>
      cases c with
      | nil => simp [charListLe] at hbc
      | cons z zs =>
        unfold charListLe at hab hbc ⊢
        by_cases h1 : x.toNat < y.toNat
        · by_cases h2 : y.toNat < z.toNat
          · have h3 : x.toNat < z.toNat := by omega
            simp [h3]
          · by_cases h4 : z.toNat < y.toNat
            · simp [h2, h4] at hbc
            · have h3 : x.toNat < z.toNat := by omega
              simp [h3]
        · by_cases h4 : y.toNat < x.toNat
          · simp [h1, h4] at hab
          · by_cases h2 : y.toNat < z.toNat
            · have h3 : x.toNat < z.toNat := by omega
              simp [h3]
            · by_cases h5 : z.toNat < y.toNat
              · simp [h2, h5] at hbc
              · have h6 : ¬ x.toNat < z.toNat := by omega
                have h7 : ¬ z.toNat < x.toNat := by omega
                simp [h1, h4] at hab
                simp [h2, h5] at hbc
                simp [h6, h7]
                exact ih ys zs hab hbc

theorem char_eq_of_toNat_eq {a b : Char} (h : a.toNat = b.toNat) : a = b :=
  Char.eq_of_val_eq (UInt32.ext h)

theorem charListLe_antisymm : ∀ a b : List Char,
    charListLe a b = true → charListLe b a = true → a = b := by
  intro a
  induction a with
  | nil =>
    intro b _ hba
    cases b with
    | nil => rfl
    | cons y ys => simp [charListLe] at hba
  | cons x xs ih =>
    intro b hab hba
    cases b with
    | nil => simp [charListLe] at hab
    | cons y ys =>
      unfold charListLe at hab hba
      by_cases h1 : x.toNat < y.toNat
      · have h2 : ¬ y.toNat < x.toNat := by omega
        simp [h1, h2] at hab hba
      · by_cases h2 : y.toNat < x.toNat
        · simp [h1, h2] at hab
        · simp [h1, h2] at hab hba
          have hx : x = y := char_eq_of_toNat_eq (by omega)
          subst hx
          rw [ih ys hab hba]

theorem pyStrLe_total (a b : String) (h : pyStrLe a b = false) : pyStrLe b a = true :=
  charListLe_total a.data b.data h

theorem pyStrLe_trans (a b c : String) (hab : pyStrLe a b = true)
    (hbc : pyStrLe b c = true) : pyStrLe a c = true :=
  charListLe_trans a.data b.data c.data hab hbc

theorem pyStrLe_antisymm (a b : String) (hab : pyStrLe a b = true)
    (hba : pyStrLe b a = true) : a = b := by
  cases a with
  | mk ad =>
    cases b with
    | mk bd =>
      exact congrArg String.mk (charListLe_antisymm ad bd hab hba)

theorem runPatternCalls_some (calls : List PatternCall) :
    ∀ p : PatternRow, ∃ q : PatternRow,
      runPatternCalls (some p) calls = some q ∧
      q.usage_count = p.usage_count + calls.length ∧
      q.success_rate * (q.usage_count : ℚ) =
        p.success_rate * (p.usage_count : ℚ) + (calls.map (·.avg_relevance)).sum ∧
      (p.successful_sources.Nodup → q.successful_sources.Nodup) ∧
      (∀ s, s ∈ q.successful_sources ↔
        s ∈ p.successful_sources ∨ s ∈ calls.map (·.source)) := by
  induction calls with
  | nil =>
    intro p
    exact ⟨p, rfl, by simp, by simp, fun h => h, by simp⟩
  | cons c rest ih =>
    intro p
    set p' := updateSearchPattern (some p) c.query c.source c.avg_relevance
      c.results_count c.now with hp'
    obtain ⟨q, hrun, hcount, hrate, hnodup, hmem⟩ := ih p'
    have hcount' : p'.usage_count = p.usage_count + 1 := rfl
    have hrate' : p'.success_rate * (p'.usage_count : ℚ) =
        p.success_rate * (p.usage_count : ℚ) + c.avg_relevance := by
      show ((p.success_rate * (p.usage_count : ℚ) + c.avg_relevance) /
          ((p.usage_count : ℚ) + 1)) * ((p.usage_count + 1 : ℕ) : ℚ) = _
      have hne : ((p.usage_count : ℚ) + 1) ≠ 0 := by positivity
      rw [Nat.cast_add, Nat.cast_one, div_mul_cancel₀ _ hne]
    have hsrc : p'.successful_sources =
        if c.source ∈ p.successful_sources then p.successful_sources
        else p.successful_sources ++ [c.source] := rfl
    refine ⟨q, hrun, ?_, ?_, ?_, ?_⟩
    · rw [hcount, hcount']
      simp [List.length_cons]
      omega
    · rw [hrate, hrate']
      simp [List.map_cons, List.sum_cons]
      ring
    · intro hnd
      apply hnodup
      rw [hsrc]
      split
      · exact hnd
      · next hnotmem =>
          simp [List.nodup_append, hnd, hnotmem]
    · intro s
      rw [hmem s, hsrc]
      by_cases hmemc : c.source ∈ p.successful_sources
      · simp only [hmemc, if_true, ite_true, List.map_cons, List.mem_cons]
        constructor
        · rintro (hs | hs)
          · exact Or.inl hs
          · exact Or.inr (Or.inr hs)
        · rintro (hs | rfl | hs)
          · exact Or.inl hs
          · exact Or.inl hmemc
          · exact Or.inr hs
      · simp only [hmemc, if_false, ite_false, List.mem_append, List.mem_singleton,
          List.map_cons, List.mem_cons]
        tauto

/-- C2: over any nonempty sequence of `_update_search_pattern` calls whose
queries share one pattern key, starting from no stored pattern, the final row
has `usage_count` = number of calls, `success_rate` = arithmetic mean of the
observed average-relevance values (so it is invariant under reordering the
calls), and `successful_sources` holds each distinct source exactly once. -/
theorem c2_pattern_mean (calls : List PatternCall) (k : String)
    (hne : calls ≠ [])
    (hkey : ∀ c ∈ calls, patternKey c.query = k) :
    ∃ p : PatternRow, runPatternCalls none calls = some p ∧
      p.usage_count = calls.length ∧
      p.success_rate = (calls.map (·.avg_relevance)).sum / (calls.length : ℚ) ∧
      p.successful_sources.Nodup ∧
      (∀ s, s ∈ p.successful_sources ↔ s ∈ calls.map (·.source)) := by
  cases calls with
  | nil => exact absurd rfl hne
  | cons c rest =>
    have h0 : runPatternCalls none (c :: rest) =
        runPatternCalls (some (updateSearchPattern none c.query c.source
          c.avg_relevance c.results_count c.now)) rest := rfl
    set p0 := updateSearchPattern none c.query c.source c.avg_relevance
      c.results_count c.now with hp0
    have hc0 : p0.usage_count = 1 := rfl
    have hr0 : p0.success_rate = c.avg_relevance := rfl
    have hs0 : p0.successful_sources = [c.source] := rfl
    obtain ⟨q, hrun, hcount, hrate, hnodup, hmem⟩ := runPatternCalls_some rest p0
    have hqcount : q.usage_count = (c :: rest).length := by
      rw [hcount, hc0]
      simp [List.length_cons]
      omega
    refine ⟨q, by rw [h0, hrun], hqcount, ?_, ?_, ?_⟩
    · have hlen : ((c :: rest).length : ℚ) ≠ 0 := by
        simp [List.length_cons]
        positivity
      rw [eq_div_iff hlen]
      rw [← hqcount] at hlen ⊢
      rw [hrate, hc0, hr0]
      simp [List.map_cons, List.sum_cons]
    · apply hnodup
      rw [hs0]
      simp
    · intro s
      rw [hmem s, hs0]
      simp [List.map_cons]

/-- Witness for C2 at three concrete calls. -/
theorem c2_witness :
    ∃ p : PatternRow,
      runPatternCalls none
        [⟨"machine learning", "github", 1, 5, "t1"⟩,
         ⟨"learning machine", "reddit", 1 / 2, 3, "t2"⟩,
         ⟨"machine learning", "github", 0, 2, "t3"⟩] = some p ∧
      p.usage_count =
        ([⟨"machine learning", "github", 1, 5, "t1"⟩,
          ⟨"learning machine", "reddit", 1 / 2, 3, "t2"⟩,
          ⟨"machine learning", "github", 0, 2, "t3"⟩] : List PatternCall).length ∧
      p.success_rate =
        (([⟨"machine learning", "github", 1, 5, "t1"⟩,
           ⟨"learning machine", "reddit", 1 / 2, 3, "t2"⟩,
           ⟨"machine learning", "github", 0, 2, "t3"⟩] : List PatternCall).map
          (·.avg_relevance)).sum /
        ((([⟨"machine learning", "github", 1, 5, "t1"⟩,
            ⟨"learning machine", "reddit", 1 / 2, 3, "t2"⟩,
            ⟨"machine learning", "github", 0, 2, "t3"⟩] : List PatternCall)).length : ℚ) ∧
      p.successful_sources.Nodup ∧
      (∀ s, s ∈ p.successful_sources ↔
        s ∈ ([⟨"machine learning", "github", 1, 5, "t1"⟩,
              ⟨"learning machine", "reddit", 1 / 2, 3, "t2"⟩,
              ⟨"machine learning", "github", 0, 2, "t3"⟩] : List PatternCall).map
          (·.source)) :=
  c2_pattern_mean _ (patternKey "machine learning") (by simp)
    (by
      intro c hc
      simp only [List.mem_cons, List.not_mem_nil, or_false] at hc
      rcases hc with rfl | rfl | rfl
      · rfl
      · decide
      · rfl)

unseal Rat.mul Rat.inv Rat.add Rat.sub in
/-- C9, counterexample: two queries with the same *set* of lowercased
words longer than 2 characters get distinct pattern keys when a word is
repeated (storage key keeps duplicates), and repetition also flips the
similarity test of recommendation lookup past the 0.3 threshold.  So the
claimed iff fails in both the storage and the lookup direction. -/
theorem c9_counterexample :
    ((extractKeywords "machine learning").all
        (fun w => decide (w ∈ extractKeywords "machine machine learning")) &&
      (extractKeywords "machine machine learning").all
        (fun w => decide (w ∈ extractKeywords "machine learning"))) = true ∧
    patternKey "machine learning" ≠ patternKey "machine machine learning" ∧
    ((extractKeywords "machine learning").all
        (fun w => decide (w ∈ extractKeywords
          "machine machine machine machine machine machine learning")) &&
      (extractKeywords
          "machine machine machine machine machine machine learning").all
        (fun w => decide (w ∈ extractKeywords "machine learning"))) = true ∧
    (3 / 10 : ℚ) < similarity (extractKeywords "machine learning")
      ["machine", "learning"] ∧
    ¬ (3 / 10 : ℚ) < similarity
      (extractKeywords "machine machine machine machine machine machine learning")
      ["machine", "learning"] := by
  refine ⟨by decide, by decide, by decide, by decide, by decide⟩

/-- C9 (amended): learning and lookup agree with a query up to any
permutation of its extracted keyword list (so reordering words and changing
case do not matter), the storage key being determined by the sorted keyword
list with duplicates and the lookup similarity by the keyword set and the
keyword-list length. -/
theorem c9_pattern_key_perm (q1 q2 : String)
    (hperm : List.Perm (extractKeywords q1) (extractKeywords q2)) :
    patternKey q1 = patternKey q2 ∧
    ∀ pkw : List String,
      similarity (extractKeywords q1) pkw = similarity (extractKeywords q2) pkw := by
  constructor
  · unfold patternKey
    rw [sortStable_eq_of_perm pyStrLe pyStrLe_trans pyStrLe_total pyStrLe_antisymm
      _ _ hperm]
  · intro pkw
    unfold similarity kwOverlap
    have hlen := hperm.length_eq
    have hflen := ((hperm.dedup).filter (fun w => decide (w ∈ pkw))).length_eq
    by_cases h1 : extractKeywords q1 = []
    · have h2 : extractKeywords q2 = [] := ((h1 ▸ hperm).symm).eq_nil
      simp [h1, h2]
    · have h2 : extractKeywords q2 ≠ [] := by
        intro h
        exact h1 ((h ▸ hperm).eq_nil)
      rcases eq_or_ne pkw [] with rfl | hp
      · simp
      · rw [if_pos ⟨h1, hp⟩, if_pos ⟨h2, hp⟩, hflen, hlen]

/-- Witness for C9 (amended): word order and letter case do not change the
pattern key or the similarity. -/
theorem c9_witness :
    patternKey "Machine learning" = patternKey "learning machine" ∧
    ∀ pkw : List String,
      similarity (extractKeywords "Machine learning") pkw =
        similarity (extractKeywords "learning machine") pkw :=
  c9_pattern_key_perm "Machine learning" "learning machine" (by decide)

/-- C3: `create_optimized_strategy` returns `None` exactly when the
recommendation confidence is below 0.3; otherwise the strategy copies the
recommendation's source priorities, records that confidence as its
`success_metrics['confidence']`, and starts with `usage_count = 0`. -/
theorem c3_strategy_confidence (query research_type sid nowIso : String)
    (patternsTable : List PatternRow) (insightsTable : List InsightRow) :
    (createOptimizedStrategy query research_type sid nowIso patternsTable insightsTable
        = none ↔
      (getOptimizationRecommendations query patternsTable insightsTable).confidence
        < 3 / 10) ∧
    (∀ s, createOptimizedStrategy query research_type sid nowIso patternsTable
        insightsTable = some s →
      s.source_priorities =
        (getOptimizationRecommendations query patternsTable insightsTable).source_priorities ∧
      s.success_metrics = [("confidence",
        (getOptimizationRecommendations query patternsTable insightsTable).confidence)] ∧
      s.usage_count = 0) := by
  constructor
  · simp only [createOptimizedStrategy]
    split_ifs with h
    · simp [h]
    · simp [h]
  · intro s hs
    simp only [createOptimizedStrategy] at hs
    split_ifs at hs with h
    all_goals
      first
        | exact Option.noConfusion hs
        | (injection hs with h2; subst h2; exact ⟨rfl, rfl, rfl⟩)

unseal Rat.mul Rat.inv Rat.add Rat.sub in
/-- Witness for C3 at a concrete learned pattern giving confidence 1. -/
theorem c3_witness :
    createOptimizedStrategy "machine learning" "technology_analysis" "sid" "now"
      [patC3] [] = some c3WitnessStrategy ∧
    c3WitnessStrategy.source_priorities =
      (getOptimizationRecommendations "machine learning" [patC3] []).source_priorities ∧
    c3WitnessStrategy.success_metrics = [("confidence",
      (getOptimizationRecommendations "machine learning" [patC3] []).confidence)] ∧
    c3WitnessStrategy.usage_count = 0 := by
  have hs : createOptimizedStrategy "machine learning" "technology_analysis" "sid" "now"
      [patC3] [] = some c3WitnessStrategy := by rfl
  exact ⟨hs, (c3_strategy_confidence "machine learning" "technology_analysis" "sid" "now"
    [patC3] []).2 c3WitnessStrategy hs⟩

theorem rescoreResults_mem (query : String) (now : ℤ) :
    ∀ raws scored : List SearchResult,
      rescoreResults query now raws = Except.ok scored →
      ∀ r ∈ scored, ∃ r0 ∈ raws,
        (calculate_overall_score r0 query now).map
          (fun v => { r0 with relevance_score := v }) = Except.ok r := by
  intro raws
  induction raws with
  | nil =>
    intro scored h r hr
    cases h
    cases hr
  | cons r0 rest ih =>
    intro scored h r hr
    unfold rescoreResults at h
    cases hv : calculate_overall_score r0 query now with
    | error e => rw [hv] at h; cases h
    | ok v =>
      rw [hv] at h
      simp only [exceptOk_bind] at h
      cases htail : rescoreResults query now rest with
      | error e => rw [htail] at h; cases h
      | ok tail =>
        rw [htail] at h
        simp only [exceptOk_bind, exceptPure] at h
        injection h with h2
        subst h2
        rcases List.mem_cons.mp hr with rfl | hrt
        · exact ⟨r0, List.mem_cons_self r0 rest, by rw [hv]; rfl⟩
        · obtain ⟨x, hx, hfx⟩ := ih tail htail r hrt
          exact ⟨x, List.mem_cons_of_mem r0 hx, hfx⟩

/-- C5: a scored result is kept exactly when its overall score reaches the
minimum-score threshold, and the summary's `top_results` are the five
highest-scoring kept results in non-increasing score order (every kept
result left out scores no higher than any listed one). -/
theorem c5_filter_and_top5 (threshold : ℚ) (query : String) (now : ℤ)
    (raws scored : List SearchResult)
    (hscored : rescoreResults query now raws = Except.ok scored) :
    (∀ r ∈ scored, ∃ r0 ∈ raws,
      (calculate_overall_score r0 query now).map
        (fun v => { r0 with relevance_score := v }) = Except.ok r) ∧
    (∀ r, r ∈ filterHighQuality threshold scored ↔
      r ∈ scored ∧ threshold ≤ r.relevance_score) ∧
    (∃ tops rest : List SearchResult,
      List.Perm (filterHighQuality threshold scored) (tops ++ rest) ∧
      (createResultsSummary (filterHighQuality threshold scored)).top_results =
        tops.map (fun r => ⟨r.title, r.source, r.relevance_score, r.url⟩) ∧
      tops.length = min 5 (filterHighQuality threshold scored).length ∧
      List.Pairwise (fun a b => b.relevance_score ≤ a.relevance_score) tops ∧
      (∀ x ∈ rest, ∀ y ∈ tops, x.relevance_score ≤ y.relevance_score)) := by
  refine ⟨rescoreResults_mem query now raws scored hscored, ?_, ?_⟩
  · intro r
    unfold filterHighQuality
    simp [List.mem_filter, decide_eq_true_eq]
  · set kept := filterHighQuality threshold scored with hkept
    set le : SearchResult → SearchResult → Bool :=
      fun a b => decide (b.relevance_score ≤ a.relevance_score) with hle
    have htrans : ∀ a b c, le a b = true → le b c = true → le a c = true := by
      intro a b c hab hbc
      rw [hle] at hab hbc ⊢
      simp only [decide_eq_true_eq] at hab hbc ⊢
      exact le_trans hbc hab
    have htot : ∀ a b, le a b = false → le b a = true := by
      intro a b hab
      rw [hle] at hab ⊢
      simp only [decide_eq_true_eq]
      simp only [decide_eq_false_iff_not, not_le] at hab
      exact le_of_lt hab
    have hpw := sortStable_pairwise le htrans htot kept
    have hsplit : (sortStable le kept).take 5 ++ (sortStable le kept).drop 5 =
        sortStable le kept := List.take_append_drop 5 _
    refine ⟨(sortStable le kept).take 5, (sortStable le kept).drop 5, ?_, ?_, ?_, ?_, ?_⟩
    · rw [hsplit]
      exact (sortStable_perm le kept).symm
    · unfold createResultsSummary
      by_cases hk : kept.isEmpty
    -- empty: both sides are []
      · have hk2 : kept = [] := List.isEmpty_iff.mp hk
        simp [hk, hk2, sortStable]
      · simp [hk]
    · rw [List.length_take, (sortStable_perm le kept).length_eq]
    · rw [← hsplit] at hpw
      have := (List.pairwise_append.mp hpw).1
      refine this.imp ?_
      intro a b hab
      rw [hle] at hab
      simpa [decide_eq_true_eq] using hab
    · rw [← hsplit] at hpw
      have hcross := (List.pairwise_append.mp hpw).2.2
      intro x hx y hy
      have := hcross y hy x hx
      rw [hle] at this
      simpa [decide_eq_true_eq] using this

unseal Rat.mul Rat.inv Rat.add Rat.sub in
/-- Witness for C5 at two concrete scored results. -/
theorem c5_witness :
    (∀ r ∈ c5Scored, ∃ r0 ∈ c5Raws,
      (calculate_overall_score r0 "x" c5Now).map
        (fun v => { r0 with relevance_score := v }) = Except.ok r) ∧
    (∀ r, r ∈ filterHighQuality (3 / 10) c5Scored ↔
      r ∈ c5Scored ∧ 3 / 10 ≤ r.relevance_score) ∧
    (∃ tops rest : List SearchResult,
      List.Perm (filterHighQuality (3 / 10) c5Scored) (tops ++ rest) ∧
      (createResultsSummary (filterHighQuality (3 / 10) c5Scored)).top_results =
        tops.map (fun r => ⟨r.title, r.source, r.relevance_score, r.url⟩) ∧
      tops.length = min 5 (filterHighQuality (3 / 10) c5Scored).length ∧
      List.Pairwise (fun a b => b.relevance_score ≤ a.relevance_score) tops ∧
      (∀ x ∈ rest, ∀ y ∈ tops, x.relevance_score ≤ y.relevance_score)) :=
  c5_filter_and_top5 (3 / 10) "x" c5Now c5Raws c5Scored (by rfl)

theorem skipWs_not_ws (c : Char) (cs : List Char) (h : isJsonWs c = false) :
    skipWs (c :: cs) = c :: cs := by
  unfold skipWs
  simp [h]

theorem digitChar_isDigit (d : ℕ) (h : d ≤ 9) : (digitChar d).isDigit = true := by
  interval_cases d <;> decide

theorem charVal_digitChar (d : ℕ) (h : d ≤ 9) : charVal (digitChar d) = d := by
  interval_cases d <;> decide

theorem parseNatAux_stop (cs : List Char) (acc : ℕ)
    (h : ∀ c, cs.head? = some c → c.isDigit = false) :
    parseNatAux cs acc = (acc, cs) := by
  cases cs with
  | nil => rfl
  | cons c cs2 =>
    unfold parseNatAux
    rw [h c rfl]
    simp

theorem parseNatAux_cons (c : Char) (cs : List Char) (acc : ℕ) :
    parseNatAux (c :: cs) acc =
      if c.isDigit then parseNatAux cs (acc * 10 + charVal c) else (acc, c :: cs) := rfl

theorem parseNat_cons (c : Char) (cs : List Char) :
    parseNat (c :: cs) =
      if c.isDigit then some (parseNatAux (c :: cs) 0) else none := rfl

theorem parseInt_cons (c : Char) (cs : List Char) :
    parseInt (c :: cs) =
      if c = Char.ofNat 45 then (parseNat cs).map (fun p => (-(p.1 : ℤ), p.2))
      else (parseNat (c :: cs)).map (fun p => ((p.1 : ℤ), p.2)) := rfl

theorem natDigits_go (fuel : ℕ) :
    ∀ n rest acc, n ≤ fuel →
      parseNatAux (natDigits fuel n ++ rest) acc =
        parseNatAux rest (acc * 10 ^ (natDigits fuel n).length + n) := by
  induction fuel with
  | zero =>
    intro n rest acc hn
    have : n = 0 := by omega
    subst this
    simp [natDigits]
  | succ fuel ih =>
    intro n rest acc hn
    by_cases h10 : n < 10
    · unfold natDigits
      rw [if_pos h10]
      simp only [List.cons_append, List.nil_append]
      rw [parseNatAux_cons, digitChar_isDigit n (by omega), charVal_digitChar n (by omega)]
      simp [pow_one]
    · unfold natDigits
      rw [if_neg h10]
      have hlt : n / 10 < n := Nat.div_lt_self (by omega) (by omega)
      have hdiv : n / 10 ≤ fuel := by omega
      rw [List.append_assoc, ih (n / 10) _ acc hdiv]
      have hmod : n % 10 ≤ 9 := by omega
      simp only [List.cons_append, List.nil_append]
      rw [parseNatAux_cons, digitChar_isDigit _ hmod, charVal_digitChar _ hmod]
      simp only [if_true, ite_true]
      congr 1
      have hdm : n / 10 * 10 + n % 10 = n := by omega
      have hlen : (natDigits fuel (n / 10) ++ [digitChar (n % 10)]).length =
          (natDigits fuel (n / 10)).length + 1 := by simp
      rw [hlen, pow_succ]
      calc (acc * 10 ^ (natDigits fuel (n / 10)).length + n / 10) * 10 + n % 10
          = acc * (10 ^ (natDigits fuel (n / 10)).length * 10) +
              (n / 10 * 10 + n % 10) := by ring
        _ = acc * (10 ^ (natDigits fuel (n / 10)).length * 10) + n := by rw [hdm]

theorem natDigits_head_digit (fuel : ℕ) :
    ∀ n, n < fuel → ∃ c cs, natDigits fuel n = c :: cs ∧ c.isDigit = true := by
  induction fuel with
  | zero => intro n hn; exact absurd hn (by omega)
  | succ fuel ih =>
    intro n hn
    by_cases h10 : n < 10
    · exact ⟨digitChar n, [], by simp [natDigits, h10], digitChar_isDigit n (by omega)⟩
    · have hlt : n / 10 < n := Nat.div_lt_self (by omega) (by omega)
      have hdiv : n / 10 < fuel := by omega
      obtain ⟨c, cs, hc, hdig⟩ := ih (n / 10) hdiv
      refine ⟨c, cs ++ [digitChar (n % 10)], ?_, hdig⟩
      unfold natDigits
      rw [if_neg h10, hc]
      simp

theorem parseNat_encNat (n : ℕ) (rest : List Char)
    (hrest : ∀ c, rest.head? = some c → c.isDigit = false) :
    parseNat (encNat n ++ rest) = some (n, rest) := by
  obtain ⟨c, cs, hc, hdig⟩ := natDigits_head_digit (n + 1) n (by omega)
  have hgo := natDigits_go (n + 1) n rest 0 (by omega)
  unfold encNat
  rw [hc] at hgo ⊢
  simp only [List.cons_append] at hgo ⊢
  rw [parseNat_cons, hdig]
  simp only [if_true, ite_true]
  rw [hgo, parseNatAux_stop rest _ hrest]
  simp

theorem parseInt_encInt (i : ℤ) (rest : List Char)
    (hrest : ∀ c, rest.head? = some c → c.isDigit = false) :
    parseInt (encInt i ++ rest) = some (i, rest) := by
  unfold encInt
  by_cases hneg : i < 0
  · rw [if_pos hneg]
    simp only [List.cons_append]
    rw [parseInt_cons, if_pos rfl, parseNat_encNat i.natAbs rest hrest]
    simp only [Option.map_some']
    have habs : ((i.natAbs : ℤ)) = -i := by
      omega
    rw [habs]
    simp
  · rw [if_neg hneg]
    obtain ⟨c, cs, hc, hdig⟩ := natDigits_head_digit (i.toNat + 1) i.toNat (by omega)
    have h2 := parseNat_encNat i.toNat rest hrest
    unfold encNat at h2 ⊢
    rw [hc] at h2 ⊢
    simp only [List.cons_append] at h2 ⊢
    have hcm : ¬ c = Char.ofNat 45 := by
      intro h
      rw [h] at hdig
      simp [Char.isDigit] at hdig
    rw [parseInt_cons, if_neg hcm, h2]
    simp only [Option.map_some']
    rw [Int.toNat_of_nonneg (by omega)]

theorem hexDigitChar_spec (m : ℕ) (h : m ≤ 15) :
    isHexDigit (hexDigitChar m) = true ∧ hexVal (hexDigitChar m) = m := by
  interval_cases m <;> exact ⟨by decide, by decide⟩

theorem parseStringAux_quote (cs : List Char) :
    parseStringAux (quoteC :: cs) = some ([], cs) := by
  conv => lhs; rw [parseStringAux.eq_def]
  dsimp only
  rw [if_pos rfl]

theorem parseStringAux_raw (c : Char) (h1 : ¬ c = quoteC) (h2 : ¬ c = bslashC)
    (cs : List Char) :
    parseStringAux (c :: cs) = (parseStringAux cs).map (fun p => (c :: p.1, p.2)) := by
  conv => lhs; rw [parseStringAux.eq_def]
  dsimp only
  rw [if_neg h1, if_neg h2]

theorem parseStringAux_bslash (e : Char) (cs2 : List Char) :
    parseStringAux (bslashC :: e :: cs2) =
      (if e = quoteC then (parseStringAux cs2).map (fun p => (quoteC :: p.1, p.2))
       else if e = bslashC then (parseStringAux cs2).map (fun p => (bslashC :: p.1, p.2))
       else if e = '/' then (parseStringAux cs2).map (fun p => ('/' :: p.1, p.2))
       else if e = 'b' then (parseStringAux cs2).map (fun p => (Char.ofNat 8 :: p.1, p.2))
       else if e = 't' then (parseStringAux cs2).map (fun p => (Char.ofNat 9 :: p.1, p.2))
       else if e = 'n' then (parseStringAux cs2).map (fun p => (Char.ofNat 10 :: p.1, p.2))
       else if e = 'f' then (parseStringAux cs2).map (fun p => (Char.ofNat 12 :: p.1, p.2))
       else if e = 'r' then (parseStringAux cs2).map (fun p => (Char.ofNat 13 :: p.1, p.2))
       else if e = 'u' then
         match cs2 with
         | h1 :: h2 :: h3 :: h4 :: cs3 =>
           if isHexDigit h1 ∧ isHexDigit h2 ∧ isHexDigit h3 ∧ isHexDigit h4 then
             let code := ((hexVal h1 * 16 + hexVal h2) * 16 + hexVal h3) * 16 + hexVal h4
             if code < 55296 then
               (parseStringAux cs3).map (fun p => (Char.ofNat code :: p.1, p.2))
             else none
           else none
         | _ => none
       else none) := by
  conv => lhs; rw [parseStringAux.eq_def]
  dsimp only
  rw [if_neg (show ¬ bslashC = quoteC from by decide), if_pos rfl]

theorem parseStringAux_escape (s : List Char) :
    ∀ rest, parseStringAux (escapeList s ++ (quoteC :: rest)) = some (s, rest) := by
  induction s with
  | nil =>
    intro rest
    show parseStringAux (quoteC :: rest) = _
    rw [parseStringAux_quote]
  | cons c cs ih =>
    intro rest
    show parseStringAux ((escapeChar c ++ escapeList cs) ++ (quoteC :: rest)) = _
    rw [List.append_assoc]
    unfold escapeChar
    by_cases h1 : c = quoteC
    · subst h1
      rw [if_pos rfl]
      show parseStringAux (bslashC :: quoteC :: _) = _
      rw [parseStringAux_bslash, if_pos rfl]
      simp only [List.append_eq, List.nil_append]
      rw [ih rest]
      rfl
    · rw [if_neg h1]
      by_cases h2 : c = bslashC
      · subst h2
        rw [if_pos rfl]
        show parseStringAux (bslashC :: bslashC :: _) = _
        rw [parseStringAux_bslash, if_neg (by decide), if_pos rfl]
        simp only [List.append_eq, List.nil_append]
        rw [ih rest]
        rfl
      · rw [if_neg h2]
        by_cases h3 : c.toNat = 8
        · rw [if_pos h3]
          have hc : c = Char.ofNat 8 := by rw [← h3, Char.ofNat_toNat]
          show parseStringAux (bslashC :: _ :: _) = _
          rw [parseStringAux_bslash, if_neg (by decide), if_neg (by decide),
            if_neg (by decide), if_pos rfl]
          simp only [List.append_eq, List.nil_append]
          rw [ih rest, hc]
          rfl
        · rw [if_neg h3]
          by_cases h4 : c.toNat = 9
          · rw [if_pos h4]
            have hc : c = Char.ofNat 9 := by rw [← h4, Char.ofNat_toNat]
            show parseStringAux (bslashC :: _ :: _) = _
            rw [parseStringAux_bslash, if_neg (by decide), if_neg (by decide),
              if_neg (by decide), if_neg (by decide), if_pos rfl]
            simp only [List.append_eq, List.nil_append]
            rw [ih rest, hc]
            rfl
          · rw [if_neg h4]
            by_cases h5 : c.toNat = 10
            · rw [if_pos h5]
              have hc : c = Char.ofNat 10 := by rw [← h5, Char.ofNat_toNat]
              show parseStringAux (bslashC :: _ :: _) = _
              rw [parseStringAux_bslash, if_neg (by decide), if_neg (by decide),
                if_neg (by decide), if_neg (by decide), if_neg (by decide),
                if_pos rfl]
              simp only [List.append_eq, List.nil_append]
              rw [ih rest, hc]
              rfl
            · rw [if_neg h5]
              by_cases h6 : c.toNat = 12
              · rw [if_pos h6]
                have hc : c = Char.ofNat 12 := by rw [← h6, Char.ofNat_toNat]
                show parseStringAux (bslashC :: _ :: _) = _
                rw [parseStringAux_bslash, if_neg (by decide), if_neg (by decide),
                  if_neg (by decide), if_neg (by decide), if_neg (by decide),
                  if_neg (by decide), if_pos rfl]
                simp only [List.append_eq, List.nil_append]
                rw [ih rest, hc]
                rfl
              · rw [if_neg h6]
                by_cases h7 : c.toNat = 13
                · rw [if_pos h7]
                  have hc : c = Char.ofNat 13 := by rw [← h7, Char.ofNat_toNat]
                  show parseStringAux (bslashC :: _ :: _) = _
                  rw [parseStringAux_bslash, if_neg (by decide), if_neg (by decide),
                    if_neg (by decide), if_neg (by decide), if_neg (by decide),
                    if_neg (by decide), if_neg (by decide), if_pos rfl]
                  simp only [List.append_eq, List.nil_append]
                  rw [ih rest, hc]
                  rfl
                · rw [if_neg h7]
                  by_cases h8 : c.toNat < 32
                  · rw [if_pos h8]
                    obtain ⟨hhx3, hhv3⟩ := hexDigitChar_spec (c.toNat / 16) (by omega)
                    obtain ⟨hhx4, hhv4⟩ := hexDigitChar_spec (c.toNat % 16) (by omega)
                    show parseStringAux (bslashC :: _ :: _) = _
                    rw [parseStringAux_bslash, if_neg (by decide), if_neg (by decide),
                      if_neg (by decide), if_neg (by decide), if_neg (by decide),
                      if_neg (by decide), if_neg (by decide), if_neg (by decide),
                      if_pos rfl]
                    simp only [List.append_eq, List.cons_append, List.nil_append]
                    have hcond : isHexDigit (digitChar 0) = true ∧
                        isHexDigit (digitChar 0) = true ∧
                        isHexDigit (hexDigitChar (c.toNat / 16)) = true ∧
                        isHexDigit (hexDigitChar (c.toNat % 16)) = true :=
                      ⟨by decide, by decide, hhx3, hhx4⟩
                    rw [if_pos hcond]
                    have hcode : ((hexVal (digitChar 0) * 16 + hexVal (digitChar 0)) * 16 +
                        hexVal (hexDigitChar (c.toNat / 16))) * 16 +
                        hexVal (hexDigitChar (c.toNat % 16)) = c.toNat := by
                      rw [hhv3, hhv4]
                      have h0 : hexVal (digitChar 0) = 0 := by decide
                      rw [h0]
                      omega
                    rw [if_pos (by rw [hcode]; omega)]
                    rw [ih rest]
                    simp only [Option.map_some']
                    rw [hcode, Char.ofNat_toNat]
                  · rw [if_neg h8]
                    show parseStringAux (c :: _) = _
                    rw [parseStringAux_raw c h1 h2]
                    simp only [List.append_eq, List.nil_append]
                    rw [ih rest]
                    rfl

theorem parseJString_encString (s : String) (rest : List Char) :
    parseJString (encString s ++ rest) = some (s.data, rest) := by
  unfold encString parseJString
  rw [List.cons_append]
  dsimp only
  rw [if_pos rfl]
  have h := parseStringAux_escape s.data rest
  rw [List.append_assoc]
  exact h

theorem restOk_nil : RestOk [] := fun c h => by cases h

theorem restOk_cons (c : Char) (cs : List Char) (h : c.isDigit = false) :
    RestOk (c :: cs) := by
  intro c2 h2
  cases h2
  exact h

theorem optBind_some (a : α) (f : α → Option β) : (some a >>= f) = f a := rfl

theorem one_le_sizeVal (v : JVal) : 1 ≤ sizeVal v := by
  cases v with
  | arr xs => cases xs <;> simp [sizeVal]
  | obj kvs =>
    cases kvs with
    | nil => simp [sizeVal]
    | cons kv kvs => cases kv; simp [sizeVal]
  | _ => simp [sizeVal]

theorem isDigit_bounds {c : Char} (h : c.isDigit = true) :
    48 ≤ c.toNat ∧ c.toNat ≤ 57 := by
  unfold Char.isDigit at h
  simp at h
  exact h

theorem char_ne_of_toNat_ne {a b : Char} (h : ¬ a.toNat = b.toNat) : ¬ a = b :=
  fun he => h (by rw [he])

theorem digit_ne {c : Char} (h : c.isDigit = true) (n : ℕ)
    (hn : (Char.ofNat n).toNat < 48 ∨ 57 < (Char.ofNat n).toNat) :
    ¬ c = Char.ofNat n := by
  obtain ⟨h1, h2⟩ := isDigit_bounds h
  refine char_ne_of_toNat_ne (fun he => ?_)
  rw [he] at h1 h2
  omega

theorem digit_not_ws {c : Char} (h : c.isDigit = true) : isJsonWs c = false := by
  unfold isJsonWs
  simp only [decide_eq_false_iff_not]
  push_neg
  exact ⟨digit_ne h 32 (by decide), digit_ne h 9 (by decide),
    digit_ne h 10 (by decide), digit_ne h 13 (by decide)⟩

/-- Heads of encoded JSON values: nonempty, not whitespace, not a closing
bracket or brace. -/
theorem encVal_head (v : JVal) (l : List Char) (h : encVal v = some l) :
    ∃ c t, l = c :: t ∧ isJsonWs c = false ∧ ¬ c = ']' ∧ ¬ c = rbraceC := by
  cases v with
  | null =>
    simp [encVal] at h
    exact ⟨'n', _, h.symm, by decide, by decide, by decide⟩
  | bool b =>
    cases b with
    | true =>
      simp [encVal] at h
      exact ⟨'t', _, h.symm, by decide, by decide, by decide⟩
    | false =>
      simp [encVal] at h
      exact ⟨'f', _, h.symm, by decide, by decide, by decide⟩
  | int i =>
    simp [encVal] at h
    subst h
    unfold encInt
    by_cases hneg : i < 0
    · rw [if_pos hneg]
      exact ⟨Char.ofNat 45, _, rfl, by decide, by decide, by decide⟩
    · rw [if_neg hneg]
      obtain ⟨c, cs, hc, hdig⟩ := natDigits_head_digit (i.toNat + 1) i.toNat (by omega)
      unfold encNat
      rw [hc]
      exact ⟨c, cs, rfl, digit_not_ws hdig,
        digit_ne hdig 93 (by decide),
        digit_ne hdig 125 (by decide)⟩
  | str s =>
    simp [encVal] at h
    subst h
    exact ⟨quoteC, _, rfl, by decide, by decide, by decide⟩
  | arr xs =>
    simp only [encVal] at h
    rcases Option.map_eq_some'.mp h with ⟨b, _, hl⟩
    exact ⟨'[', _, hl.symm, by decide, by decide, by decide⟩
  | obj kvs =>
    simp only [encVal] at h
    rcases Option.map_eq_some'.mp h with ⟨b, _, hl⟩
    exact ⟨lbraceC, _, hl.symm, by decide, by decide, by decide⟩
  | pyobj n => simp [encVal] at h

theorem skipWs_encVal (v : JVal) (l rest : List Char) (h : encVal v = some l) :
    skipWs (l ++ rest) = l ++ rest := by
  obtain ⟨c, t, hl, hws, _, _⟩ := encVal_head v l h
  subst hl
  rw [List.cons_append]
  exact skipWs_not_ws c _ hws

/-- Structure of a nonempty encoded array. -/
theorem encArr_cons (x : JVal) (xs : List JVal) (l : List Char)
    (h : encArr (x :: xs) = some l) :
    ∃ a, encVal x = some a ∧
      ((xs = [] ∧ l = a) ∨
        ∃ b, encArr xs = some b ∧ xs ≠ [] ∧ l = a ++ (',' :: ' ' :: b)) := by
  cases xs with
  | nil =>
    refine ⟨l, ?_, Or.inl ⟨rfl, rfl⟩⟩
    simpa [encArr] using h
  | cons y ys =>
    rw [encArr] at h
    cases hx : encVal x with
    | none => rw [hx] at h; cases h
    | some a =>
      cases hb : encArr (y :: ys) with
      | none => rw [hx, hb] at h; cases h
      | some b =>
        rw [hx, hb] at h
        injection h with h2
        exact ⟨a, rfl, Or.inr ⟨b, rfl, by simp, h2.symm⟩⟩

/-- Structure of a nonempty encoded object. -/
theorem encObj_cons (k : String) (v : JVal) (kvs : List (String × JVal))
    (l : List Char) (h : encObj ((k, v) :: kvs) = some l) :
    ∃ ev, encVal v = some ev ∧
      ((kvs = [] ∧ l = encString k ++ (':' :: ' ' :: ev)) ∨
        ∃ b, encObj kvs = some b ∧ kvs ≠ [] ∧
          l = encString k ++ (':' :: ' ' :: ev) ++ (',' :: ' ' :: b)) := by
  cases kvs with
  | nil =>
    rw [encObj] at h
    cases hv : encVal v with
    | none => rw [hv] at h; cases h
    | some ev =>
      rw [hv] at h
      injection h with h2
      exact ⟨ev, rfl, Or.inl ⟨rfl, h2.symm⟩⟩
  | cons kv2 kvs2 =>
    rw [encObj] at h
    cases hv : encVal v with
    | none => rw [hv] at h; cases h
    | some ev =>
      cases hb : encObj (kv2 :: kvs2) with
      | none => rw [hv, hb] at h; cases h
      | some b =>
        rw [hv, hb] at h
        injection h with h2
        exact ⟨ev, rfl, Or.inr ⟨b, rfl, by simp, h2.symm⟩⟩

mutual
/-- The fuel bound of a value is at most the length of its encoding. -/
theorem encVal_size (v : JVal) (l : List Char) (h : encVal v = some l) :
    sizeVal v ≤ l.length := by
  cases v with
  | arr xs =>
    cases xs with
    | nil =>
      simp [encVal, encArr] at h
      subst h
      simp [sizeVal]
    | cons x xs =>
      simp only [encVal] at h
      rcases Option.map_eq_some'.mp h with ⟨b, hb, hl⟩
      have := encArr_size (x :: xs) b hb
      subst hl
      simp only [sizeVal, List.length_cons, List.length_append, List.length]
      omega
  | obj kvs =>
    cases kvs with
    | nil =>
      simp [encVal, encObj] at h
      subst h
      simp [sizeVal]
    | cons kv kvs =>
      cases kv with
      | mk k v2 =>
        simp only [encVal] at h
        rcases Option.map_eq_some'.mp h with ⟨b, hb, hl⟩
        have := encObj_size ((k, v2) :: kvs) b hb
        subst hl
        simp only [sizeVal, List.length_cons, List.length_append, List.length]
        omega
  | _ =>
    obtain ⟨c, t, hl, -, -, -⟩ := encVal_head _ l h
    subst hl
    simp only [List.length_cons]
    first
      | (simp only [sizeVal]; omega)
theorem encArr_size (xs : List JVal) (l : List Char) (h : encArr xs = some l) :
    sizeArrL xs ≤ l.length + 1 := by
  cases xs with
  | nil => simp [sizeArrL]
  | cons x xs =>
    cases xs with
    | nil =>
      have hx : encVal x = some l := by simpa [encArr] using h
      have := encVal_size x l hx
      simp only [sizeArrL]
      omega
    | cons y ys =>
      rw [encArr] at h
      cases hx : encVal x with
      | none => rw [hx] at h; cases h
      | some a =>
        cases hb : encArr (y :: ys) with
        | none => rw [hx, hb] at h; cases h
        | some b =>
          rw [hx, hb] at h
          injection h with h2
          have h3 := encVal_size x a hx
          have h4 := encArr_size (y :: ys) b hb
          subst h2
          rw [sizeArrL]
          simp only [List.length_append, List.length_cons]
          omega
theorem encObj_size (kvs : List (String × JVal)) (l : List Char)
    (h : encObj kvs = some l) : sizeObjL kvs ≤ l.length + 1 := by
  cases kvs with
  | nil => simp [sizeObjL]
  | cons kv kvs =>
    cases kv with
    | mk k v =>
      cases kvs with
      | nil =>
        rw [encObj] at h
        cases hv : encVal v with
        | none => rw [hv] at h; cases h
        | some ev =>
          rw [hv] at h
          injection h with h2
          have h3 := encVal_size v ev hv
          subst h2
          simp only [sizeObjL, List.length_append, List.length_cons]
          omega
      | cons kv2 kvs2 =>
        rw [encObj] at h
        cases hv : encVal v with
        | none => rw [hv] at h; cases h
        | some ev =>
          cases hb : encObj (kv2 :: kvs2) with
          | none => rw [hv, hb] at h; cases h
          | some b =>
            rw [hv, hb] at h
            injection h with h2
            have h3 := encVal_size v ev hv
            have h4 := encObj_size (kv2 :: kvs2) b hb
            subst h2
            rw [sizeObjL]
            simp only [List.length_append, List.length_cons]
            omega
end

theorem skipWs_space (z : List Char) : skipWs (' ' :: z) = skipWs z := by
  conv => lhs; rw [skipWs.eq_def]
  dsimp only
  rw [if_pos (by decide)]

theorem encArr_head (x : JVal) (xs : List JVal) (B : List Char)
    (h : encArr (x :: xs) = some B) :
    ∃ c t, B = c :: t ∧ isJsonWs c = false ∧ ¬ c = ']' ∧ ¬ c = rbraceC := by
  obtain ⟨a, ha, hcase⟩ := encArr_cons x xs B h
  obtain ⟨c, t, hat, hws, hne1, hne2⟩ := encVal_head x a ha
  rcases hcase with ⟨-, hB⟩ | ⟨b, -, -, hB⟩
  · exact ⟨c, t, hB.trans hat, hws, hne1, hne2⟩
  · refine ⟨c, t ++ (',' :: ' ' :: b), ?_, hws, hne1, hne2⟩
    rw [hB, hat, List.cons_append]

theorem encObj_head (k : String) (v : JVal) (kvs : List (String × JVal))
    (B : List Char) (h : encObj ((k, v) :: kvs) = some B) :
    ∃ t, B = quoteC :: t := by
  obtain ⟨ev, -, hcase⟩ := encObj_cons k v kvs B h
  rcases hcase with ⟨-, hB⟩ | ⟨b, -, -, hB⟩
  · exact ⟨_, by rw [hB]; rfl⟩
  · refine ⟨escapeList k.data ++ [quoteC] ++ (':' :: ' ' :: ev) ++ (',' :: ' ' :: b), ?_⟩
    rw [hB]
    simp [encString]

theorem parse_enc : ∀ fuel : ℕ,
    (∀ v l rest, encVal v = some l → sizeVal v ≤ fuel → RestOk rest →
      parseVal fuel (l ++ rest) = some (v, rest)) ∧
    (∀ x xs l rest, encArr (x :: xs) = some l → sizeArrL (x :: xs) ≤ fuel →
      parseArrLoop fuel (l ++ (']' :: rest)) = some (x :: xs, rest)) ∧
    (∀ k v kvs l rest, encObj ((k, v) :: kvs) = some l →
      sizeObjL ((k, v) :: kvs) ≤ fuel →
      parseObjLoop fuel (l ++ (rbraceC :: rest)) = some ((k, v) :: kvs, rest)) := by
  intro fuel
  induction fuel with
  | zero =>
    refine ⟨?_, ?_, ?_⟩
    · intro v l rest _ hs _
      exact absurd hs (by have := one_le_sizeVal v; omega)
    · intro x xs l rest _ hs
      rw [sizeArrL] at hs
      omega
    · intro k v kvs l rest _ hs
      rw [sizeObjL] at hs
      omega
  | succ fuel ih =>
    obtain ⟨ih1, ih2, ih3⟩ := ih
    refine ⟨?_, ?_, ?_⟩
    · intro v l rest henc hsize hrest
      cases v with
      | null =>
        have hl : l = ['n', 'u', 'l', 'l'] := by
          simp [encVal] at henc
          exact henc.symm
        subst hl
        simp only [List.cons_append, List.nil_append]
        conv => lhs; rw [parseVal.eq_def]
        dsimp only
        rw [skipWs_not_ws _ _ (by decide)]
        dsimp only
        rw [if_neg (by decide), if_neg (by decide), if_neg (by decide), if_pos rfl]
        rw [if_pos ⟨rfl, rfl, rfl⟩]
      | bool b =>
        cases b with
        | true =>
          have hl : l = ['t', 'r', 'u', 'e'] := by
            simp [encVal] at henc
            exact henc.symm
          subst hl
          simp only [List.cons_append, List.nil_append]
          conv => lhs; rw [parseVal.eq_def]
          dsimp only
          rw [skipWs_not_ws _ _ (by decide)]
          dsimp only
          rw [if_neg (by decide), if_neg (by decide), if_neg (by decide),
            if_neg (by decide), if_pos rfl]
          rw [if_pos ⟨rfl, rfl, rfl⟩]
        | false =>
          have hl : l = ['f', 'a', 'l', 's', 'e'] := by
            simp [encVal] at henc
            exact henc.symm
          subst hl
          simp only [List.cons_append, List.nil_append]
          conv => lhs; rw [parseVal.eq_def]
          dsimp only
          rw [skipWs_not_ws _ _ (by decide)]
          dsimp only
          rw [if_neg (by decide), if_neg (by decide), if_neg (by decide),
            if_neg (by decide), if_neg (by decide), if_pos rfl]
          rw [if_pos ⟨rfl, rfl, rfl, rfl⟩]
      | int i =>
        have hl : l = encInt i := by
          simp [encVal] at henc
          exact henc.symm
        subst hl
        by_cases hneg : i < 0
        · have he : encInt i = Char.ofNat 45 :: encNat i.natAbs := by
            unfold encInt
            rw [if_pos hneg]
          rw [he, List.cons_append]
          conv => lhs; rw [parseVal.eq_def]
          dsimp only
          rw [skipWs_not_ws _ _ (by decide)]
          dsimp only
          rw [if_neg (by decide), if_neg (by decide), if_neg (by decide),
            if_neg (by decide), if_neg (by decide), if_neg (by decide),
            if_pos (Or.inl rfl)]
          rw [← List.cons_append, ← he, parseInt_encInt i rest hrest]
          rfl
        · obtain ⟨c, t, hct, hdig⟩ := natDigits_head_digit (i.toNat + 1) i.toNat (by omega)
          have he : encInt i = c :: t := by
            unfold encInt
            rw [if_neg hneg]
            unfold encNat
            exact hct
          rw [he, List.cons_append]
          conv => lhs; rw [parseVal.eq_def]
          dsimp only
          rw [skipWs_not_ws _ _ (digit_not_ws hdig)]
          dsimp only
          rw [if_neg (fun hh => absurd hdig (by rw [hh]; decide)),
            if_neg (fun hh => absurd hdig (by rw [hh]; decide)),
            if_neg (fun hh => absurd hdig (by rw [hh]; decide)),
            if_neg (fun hh => absurd hdig (by rw [hh]; decide)),
            if_neg (fun hh => absurd hdig (by rw [hh]; decide)),
            if_neg (fun hh => absurd hdig (by rw [hh]; decide)),
            if_pos (Or.inr hdig)]
          rw [← List.cons_append, ← he, parseInt_encInt i rest hrest]
          rfl
      | str s =>
        have hl : l = encString s := by
          simp [encVal] at henc
          exact henc.symm
        subst hl
        simp only [encString, List.cons_append]
        conv => lhs; rw [parseVal.eq_def]
        dsimp only
        rw [skipWs_not_ws _ _ (by decide)]
        dsimp only
        rw [if_pos rfl]
        simp only [List.append_assoc, List.cons_append, List.nil_append]
        rw [parseStringAux_escape s.data rest]
        rfl
      | arr xs =>
        cases xs with
        | nil =>
          have hl : l = ['[', ']'] := by
            simp [encVal, encArr] at henc
            exact henc.symm
          subst hl
          simp only [List.cons_append, List.nil_append]
          conv => lhs; rw [parseVal.eq_def]
          dsimp only
          rw [skipWs_not_ws _ _ (by decide)]
          dsimp only
          rw [if_neg (by decide), if_pos rfl]
          rw [skipWs_not_ws _ _ (by decide)]
          dsimp only
          rw [if_pos rfl]
        | cons x xs =>
          simp only [encVal] at henc
          rcases Option.map_eq_some'.mp henc with ⟨B, hB, hl⟩
          subst hl
          simp only [List.cons_append]
          conv => lhs; rw [parseVal.eq_def]
          dsimp only
          rw [skipWs_not_ws _ _ (by decide)]
          dsimp only
          rw [if_neg (by decide), if_pos rfl]
          have hshape : (B ++ [']']) ++ rest = B ++ (']' :: rest) := by simp
          rw [hshape]
          obtain ⟨c2, t2, hBc, hws2, hne2, -⟩ := encArr_head x xs B hB
          rw [hBc, List.cons_append, skipWs_not_ws _ _ hws2]
          dsimp only
          rw [if_neg hne2, ← List.cons_append, ← hBc]
          rw [ih2 x xs B rest hB (by rw [sizeVal] at hsize; omega)]
          rfl
      | obj kvs =>
        cases kvs with
        | nil =>
          have hl : l = [lbraceC, rbraceC] := by
            simp [encVal, encObj] at henc
            exact henc.symm
          subst hl
          simp only [List.cons_append, List.nil_append]
          conv => lhs; rw [parseVal.eq_def]
          dsimp only
          rw [skipWs_not_ws _ _ (by decide)]
          dsimp only
          rw [if_neg (by decide), if_neg (by decide), if_pos rfl]
          rw [skipWs_not_ws _ _ (by decide)]
          dsimp only
          rw [if_pos rfl]
        | cons kv kvs =>
          cases kv with
          | mk k v2 =>
            simp only [encVal] at henc
            rcases Option.map_eq_some'.mp henc with ⟨B, hB, hl⟩
            subst hl
            simp only [List.cons_append]
            conv => lhs; rw [parseVal.eq_def]
            dsimp only
            rw [skipWs_not_ws _ _ (by decide)]
            dsimp only
            rw [if_neg (by decide), if_neg (by decide), if_pos rfl]
            have hshape : (B ++ [rbraceC]) ++ rest = B ++ (rbraceC :: rest) := by simp
            rw [hshape]
            obtain ⟨t2, hBc⟩ := encObj_head k v2 kvs B hB
            rw [hBc, List.cons_append, skipWs_not_ws _ _ (by decide)]
            dsimp only
            rw [if_neg (by decide), ← List.cons_append, ← hBc]
            rw [ih3 k v2 kvs B rest hB (by rw [sizeVal] at hsize; omega)]
            rfl
      | pyobj n => simp [encVal] at henc
    · intro x xs l rest henc hsize
      obtain ⟨a, ha, hcase⟩ := encArr_cons x xs l henc
      rw [sizeArrL] at hsize
      rcases hcase with ⟨hxs, hl⟩ | ⟨b, hb, hne, hl⟩
      · subst hxs
        subst hl
        conv => lhs; rw [parseArrLoop.eq_def]
        dsimp only
        rw [ih1 x l (']' :: rest) ha (by simp only [sizeArrL] at hsize ⊢; omega)
          (restOk_cons ']' rest (by decide))]
        rw [optBind_some]
        dsimp only
        rw [skipWs_not_ws _ _ (by decide)]
        dsimp only
        rw [if_neg (by decide), if_pos rfl]
      · cases xs with
        | nil => exact absurd rfl hne
        | cons y ys =>
          subst hl
          conv => lhs; rw [parseArrLoop.eq_def]
          dsimp only
          simp only [List.append_assoc, List.cons_append]
          rw [ih1 x a (',' :: ' ' :: (b ++ (']' :: rest))) ha (by omega)
            (restOk_cons _ _ (by decide))]
          rw [optBind_some]
          dsimp only
          rw [skipWs_not_ws _ _ (by decide)]
          dsimp only
          rw [if_pos rfl, skipWs_space]
          obtain ⟨c2, t2, hbc, hws2, -, -⟩ := encArr_head y ys b hb
          rw [hbc, List.cons_append, skipWs_not_ws _ _ hws2, ← List.cons_append, ← hbc]
          rw [ih2 y ys b rest hb (by omega)]
          rfl
    · intro k v kvs l rest henc hsize
      obtain ⟨ev, hev, hcase⟩ := encObj_cons k v kvs l henc
      rw [sizeObjL] at hsize
      rcases hcase with ⟨hkvs, hl⟩ | ⟨b, hb, hne, hl⟩
      · subst hkvs
        subst hl
        conv => lhs; rw [parseObjLoop.eq_def]
        dsimp only
        simp only [encString, List.cons_append, List.append_assoc, List.nil_append]
        simp only [if_true]
        rw [parseStringAux_escape k.data (':' :: ' ' :: (ev ++ (rbraceC :: rest)))]
        rw [optBind_some]
        dsimp only
        rw [skipWs_not_ws _ _ (by decide)]
        dsimp only
        rw [if_pos rfl, skipWs_space, skipWs_encVal v ev _ hev]
        rw [ih1 v ev (rbraceC :: rest) hev (by simp only [sizeObjL] at hsize ⊢; omega)
          (restOk_cons _ _ (by decide))]
        rw [optBind_some]
        dsimp only
        rw [skipWs_not_ws _ _ (by decide)]
        dsimp only
        rw [if_neg (by decide), if_pos rfl]
      · cases kvs with
        | nil => exact absurd rfl hne
        | cons kv2 kvs2 =>
          cases kv2 with
          | mk k2 v2 =>
            subst hl
            conv => lhs; rw [parseObjLoop.eq_def]
            dsimp only
            simp only [encString, List.cons_append, List.append_assoc, List.nil_append]
            simp only [if_true]
            rw [parseStringAux_escape k.data
              (':' :: ' ' :: (ev ++ (',' :: ' ' :: (b ++ (rbraceC :: rest)))))]
            rw [optBind_some]
            dsimp only
            rw [skipWs_not_ws _ _ (by decide)]
            dsimp only
            rw [if_pos rfl, skipWs_space, skipWs_encVal v ev _ hev]
            rw [ih1 v ev (',' :: ' ' :: (b ++ (rbraceC :: rest))) hev (by omega)
              (restOk_cons _ _ (by decide))]
            rw [optBind_some]
            dsimp only
            rw [skipWs_not_ws _ _ (by decide)]
            dsimp only
            rw [if_pos rfl, skipWs_space]
            obtain ⟨t2, hbc⟩ := encObj_head k2 v2 kvs2 b hb
            rw [hbc, List.cons_append, skipWs_not_ws _ _ (by decide),
              ← List.cons_append, ← hbc]
            rw [ih3 k2 v2 kvs2 b rest hb (by omega)]
            rfl

theorem loads_dumps (v : JVal) (s : String) (h : dumps v = some s) :
    loads s = some v := by
  unfold dumps at h
  rcases Option.map_eq_some'.mp h with ⟨l, hl, hs⟩
  subst hs
  unfold loads
  have h1 := (parse_enc (l.length + 1)).1 v l [] hl
    (by have := encVal_size v l hl; omega) restOk_nil
  rw [List.append_nil] at h1
  show (match parseVal (l.length + 1) l with
    | some (v2, r) => if skipWs r = [] then some v2 else none
    | none => none) = some v
  rw [h1]
  dsimp only
  rw [if_pos (show skipWs ([] : List Char) = [] from rfl)]

theorem rd2_pad2 (n : ℕ) (rest : List Char) :
    rd2 (pad2 n ++ rest) = some (n % 100, rest) := by
  unfold pad2 rd2
  simp only [List.cons_append, List.nil_append]
  rw [if_pos ⟨digitChar_isDigit _ (by omega), digitChar_isDigit _ (by omega)⟩]
  rw [charVal_digitChar _ (by omega), charVal_digitChar _ (by omega)]
  have : n / 10 % 10 * 10 + n % 10 = n % 100 := by omega
  rw [this]

theorem rd4_pad4 (n : ℕ) (rest : List Char) :
    rd4 (pad4 n ++ rest) = some (n % 10000, rest) := by
  unfold pad4 rd4
  simp only [List.cons_append, List.nil_append]
  rw [if_pos ⟨digitChar_isDigit _ (by omega), digitChar_isDigit _ (by omega),
    digitChar_isDigit _ (by omega), digitChar_isDigit _ (by omega)⟩]
  rw [charVal_digitChar _ (by omega), charVal_digitChar _ (by omega),
    charVal_digitChar _ (by omega), charVal_digitChar _ (by omega)]
  have : n / 1000 % 10 * 1000 + n / 100 % 10 * 100 + n / 10 % 10 * 10 + n % 10
      = n % 10000 := by omega
  rw [this]

theorem rd6_pad6 (n : ℕ) (rest : List Char) :
    rd6 (pad6 n ++ rest) = some (n % 1000000, rest) := by
  unfold pad6 rd6
  simp only [List.cons_append, List.nil_append]
  rw [if_pos ⟨digitChar_isDigit _ (by omega), digitChar_isDigit _ (by omega),
    digitChar_isDigit _ (by omega), digitChar_isDigit _ (by omega),
    digitChar_isDigit _ (by omega), digitChar_isDigit _ (by omega)⟩]
  rw [charVal_digitChar _ (by omega), charVal_digitChar _ (by omega),
    charVal_digitChar _ (by omega), charVal_digitChar _ (by omega),
    charVal_digitChar _ (by omega), charVal_digitChar _ (by omega)]
  have : n / 100000 % 10 * 100000 + n / 10000 % 10 * 10000 + n / 1000 % 10 * 1000
      + n / 100 % 10 * 100 + n / 10 % 10 * 10 + n % 10 = n % 1000000 := by omega
  rw [this]

theorem expectC_cons (c : Char) (rest : List Char) :
    expectC c (c :: rest) = some rest := by
  simp [expectC]

theorem rd6_pad6_nil (n : ℕ) : rd6 (pad6 n) = some (n % 1000000, []) := by
  have h := rd6_pad6 n []
  rwa [List.append_nil] at h

theorem daysInMonth_le_31 (y m : ℕ) : daysInMonth y m ≤ 31 := by
  unfold daysInMonth
  split_ifs <;> omega

/-- A `datetime` that passes the constructor checks round-trips through
`isoformat` and `fromisoformat`. -/
theorem fromisoformat_isoformat (t : DateTime) (hv : t.Valid) :
    fromisoformat t.isoformat = some t := by
  obtain ⟨h1, h2, h3, h4, h5, h6, h7, h8, h9, h10⟩ := hv
  have hd31 : t.day ≤ 31 := le_trans h6 (daysInMonth_le_31 t.year t.month)
  unfold fromisoformat DateTime.isoformat DateTime.isoformatL
  show fromisoformatL _ = _
  unfold fromisoformatL
  simp only [List.append_assoc, List.cons_append, List.nil_append]
  by_cases hus : t.microsecond = 0
  · rw [hus]
    rw [if_pos rfl]
    rw [rd4_pad4, optBind_some]
    dsimp only
    rw [expectC_cons, optBind_some, rd2_pad2, optBind_some]
    dsimp only
    rw [expectC_cons, optBind_some, rd2_pad2, optBind_some]
    dsimp only
    rw [if_pos rfl]
    rw [rd2_pad2, optBind_some]
    dsimp only
    rw [expectC_cons, optBind_some, rd2_pad2, optBind_some]
    dsimp only
    rw [expectC_cons, optBind_some, rd2_pad2, optBind_some]
    dsimp only
    unfold mkDateTime
    dsimp only
    rw [Nat.mod_eq_of_lt (by omega), Nat.mod_eq_of_lt (by omega),
      Nat.mod_eq_of_lt (by omega), Nat.mod_eq_of_lt (by omega),
      Nat.mod_eq_of_lt (by omega), Nat.mod_eq_of_lt (by omega)]
    rw [if_pos (show DateTime.Valid ⟨t.year, t.month, t.day, t.hour, t.minute,
      t.second, 0⟩ from ⟨h1, h2, h3, h4, h5, h6, h7, h8, h9, Nat.zero_le 999999⟩)]
    conv => lhs; rw [← hus]
  · rw [if_neg hus]
    rw [rd4_pad4, optBind_some]
    dsimp only
    rw [expectC_cons, optBind_some, rd2_pad2, optBind_some]
    dsimp only
    rw [expectC_cons, optBind_some, rd2_pad2, optBind_some]
    dsimp only
    rw [if_pos rfl]
    rw [rd2_pad2, optBind_some]
    dsimp only
    rw [expectC_cons, optBind_some, rd2_pad2, optBind_some]
    dsimp only
    rw [expectC_cons, optBind_some, rd2_pad2, optBind_some]
    dsimp only
    rw [if_pos rfl]
    rw [rd6_pad6_nil, optBind_some]
    dsimp only
    unfold mkDateTime
    dsimp only
    rw [Nat.mod_eq_of_lt (by omega), Nat.mod_eq_of_lt (by omega),
      Nat.mod_eq_of_lt (by omega), Nat.mod_eq_of_lt (by omega),
      Nat.mod_eq_of_lt (by omega), Nat.mod_eq_of_lt (by omega),
      Nat.mod_eq_of_lt (by omega)]
    rw [if_pos (show DateTime.Valid ⟨t.year, t.month, t.day, t.hour, t.minute,
      t.second, t.microsecond⟩ from ⟨h1, h2, h3, h4, h5, h6, h7, h8, h9, h10⟩)]

theorem strsOf_map_str (l : List String) : strsOf (l.map JVal.str) = some l := by
  induction l with
  | nil => rfl
  | cons s rest ih =>
    simp only [List.map_cons, strsOf, ih, Option.map_some']

theorem encArr_map_str (l : List String) :
    ∃ cs, encArr (l.map JVal.str) = some cs := by
  induction l with
  | nil => exact ⟨[], rfl⟩
  | cons s rest ih =>
    obtain ⟨cs, hcs⟩ := ih
    cases rest with
    | nil => exact ⟨encString s, rfl⟩
    | cons t ts =>
      refine ⟨encString s ++ (',' :: ' ' :: cs), ?_⟩
      simp only [List.map_cons] at hcs ⊢
      rw [encArr, encVal, hcs]

theorem loads_strListJson (l : List String) :
    loads (strListJson l) = some (JVal.arr (l.map JVal.str)) := by
  obtain ⟨cs, hcs⟩ := encArr_map_str l
  have hd : dumps (JVal.arr (l.map JVal.str))
      = some ⟨'[' :: (cs ++ [']'])⟩ := by
    unfold dumps
    rw [encVal, hcs]
    rfl
  have : strListJson l = ⟨'[' :: (cs ++ [']'])⟩ := by
    unfold strListJson
    rw [hd]
    rfl
  rw [this]
  exact loads_dumps _ _ hd

theorem find?_replace (l : List ProjectRow) (pid : String) (row : ProjectRow) :
    List.find? (fun r => decide (r.project_id = pid))
      (l.filter (fun r => decide (¬ r.project_id = pid)) ++ [row])
        = if row.project_id = pid then some row else none := by
  induction l with
  | nil =>
    simp only [List.filter_nil, List.nil_append, List.find?]
    by_cases h : row.project_id = pid
    · rw [if_pos h]
      simp [h]
    · rw [if_neg h]
      simp [h]
  | cons a l ih =>
    rw [List.filter_cons]
    by_cases h : a.project_id = pid
    · rw [if_neg (by simp [h])]
      exact ih
    · rw [if_pos (by simp [h]), List.cons_append,
        List.find?_cons_of_neg _ (by simp [h])]
      exact ih

theorem mapMO_length (f : α → Option β) :
    ∀ l bs, mapMO f l = some bs → bs.length = l.length := by
  intro l
  induction l with
  | nil =>
    intro bs h
    injection h with h2
    rw [← h2]
    rfl
  | cons a rest ih =>
    intro bs h
    rw [mapMO] at h
    cases hfa : f a with
    | none => rw [hfa] at h; cases h
    | some b =>
      cases hrest : mapMO f rest with
      | none => rw [hfa, hrest] at h; cases h
      | some bs2 =>
        rw [hfa, hrest] at h
        injection h with h2
        rw [← h2]
        simp [ih bs2 hrest]

theorem mapMO_append (f : α → Option β) :
    ∀ l1 l2 bs1 bs2, mapMO f l1 = some bs1 → mapMO f l2 = some bs2 →
      mapMO f (l1 ++ l2) = some (bs1 ++ bs2) := by
  intro l1
  induction l1 with
  | nil =>
    intro l2 bs1 bs2 h1 h2
    injection h1 with h1
    rw [← h1, List.nil_append, List.nil_append]
    exact h2
  | cons a rest ih =>
    intro l2 bs1 bs2 h1 h2
    rw [mapMO] at h1
    cases hfa : f a with
    | none => rw [hfa] at h1; cases h1
    | some b =>
      cases hrest : mapMO f rest with
      | none => rw [hfa, hrest] at h1; cases h1
      | some bs3 =>
        rw [hfa, hrest] at h1
        injection h1 with h1
        rw [← h1, List.cons_append, mapMO, hfa, ih l2 bs3 bs2 hrest h2]
        rfl

theorem mapMO_isSome (f : α → Option β) :
    ∀ l, (∀ a ∈ l, (f a).isSome = true) → ∃ bs, mapMO f l = some bs := by
  intro l
  induction l with
  | nil => exact fun _ => ⟨[], rfl⟩
  | cons a rest ih =>
    intro h
    obtain ⟨bs, hbs⟩ := ih (fun x hx => h x (List.mem_cons_of_mem a hx))
    have ha := h a (List.mem_cons_self a rest)
    cases hfa : f a with
    | none => rw [hfa] at ha; cases ha
    | some b => exact ⟨b :: bs, by rw [mapMO, hfa, hbs]⟩

theorem encodeResultRow_pid (pid : String) (r : PRSearchResult) (row : ResultRow)
    (h : encodeResultRow pid r = some row) : row.project_id = pid := by
  unfold encodeResultRow at h
  rcases Option.map_eq_some'.mp h with ⟨m, -, hrow⟩
  rw [← hrow]

theorem mapMO_encode_pid (pid : String) :
    ∀ (results : List PRSearchResult) rows,
      mapMO (encodeResultRow pid) results = some rows →
      ∀ row ∈ rows, row.project_id = pid := by
  intro results
  induction results with
  | nil =>
    intro rows h
    injection h with h
    rw [← h]
    intro row hrow
    cases hrow
  | cons r rest ih =>
    intro rows h
    rw [mapMO] at h
    cases hfa : encodeResultRow pid r with
    | none => rw [hfa] at h; cases h
    | some b =>
      cases hrest : mapMO (encodeResultRow pid) rest with
      | none => rw [hfa, hrest] at h; cases h
      | some bs =>
        rw [hfa, hrest] at h
        injection h with h
        rw [← h]
        intro row hrow
        rcases List.mem_cons.mp hrow with hh | hh
        · rw [hh]
          exact encodeResultRow_pid pid r b hfa
        · exact ih bs hrest row hh

theorem decodeResultRow_encode (pid : String) (r : PRSearchResult)
    (row : ResultRow) (hv : r.timestamp.Valid)
    (h : encodeResultRow pid r = some row) : decodeResultRow row = some r := by
  unfold encodeResultRow at h
  rcases Option.map_eq_some'.mp h with ⟨m, hm, hrow⟩
  rw [← hrow]
  unfold decodeResultRow
  dsimp only
  rw [fromisoformat_isoformat _ hv, optBind_some, loads_dumps _ _ hm, optBind_some]

theorem mapMO_decode_encode (pid : String) :
    ∀ (results : List PRSearchResult) rows,
      mapMO (encodeResultRow pid) results = some rows →
      (∀ r ∈ results, r.timestamp.Valid) →
      mapMO decodeResultRow rows = some results := by
  intro results
  induction results with
  | nil =>
    intro rows h _
    injection h with h
    rw [← h]
    rfl
  | cons r rest ih =>
    intro rows h hv
    rw [mapMO] at h
    cases hfa : encodeResultRow pid r with
    | none => rw [hfa] at h; cases h
    | some b =>
      cases hrest : mapMO (encodeResultRow pid) rest with
      | none => rw [hfa, hrest] at h; cases h
      | some bs =>
        rw [hfa, hrest] at h
        injection h with h
        rw [← h, mapMO,
          decodeResultRow_encode pid r b (hv r (List.mem_cons_self r rest)) hfa,
          ih bs hrest (fun x hx => hv x (List.mem_cons_of_mem r hx))]

/-- C4: persistence round-trips.  A saved project is returned intact by
`get_project` (sources restored from JSON, datetimes from ISO format), and
saved search results are appended to the project rows and returned intact
by `get_search_results` (given that the rows already stored decode, since
one bad row makes `get_search_results` return `[]`). -/
theorem c4_persistence_roundtrip :
    (∀ (p : ResearchProject) (db : DB), p.created_at.Valid → p.updated_at.Valid →
      get_project p.project_id (save_project p db).1 = some p) ∧
    (∀ (pid : String) (results : List PRSearchResult) (db : DB)
        (prior : List PRSearchResult),
      (∀ r ∈ results, r.timestamp.Valid ∧ (encVal r.metadata).isSome = true) →
      mapMO decodeResultRow
          (db.search_results.filter (fun row => decide (row.project_id = pid)))
        = some prior →
      get_search_results pid (save_search_results pid results db).1
        = prior ++ results) := by
  constructor
  · intro p db h1 h2
    unfold save_project get_project
    dsimp only
    rw [find?_replace db.projects p.project_id
      ⟨p.project_id, p.query, p.description, strListJson p.sources, p.status,
        p.created_at.isoformat, p.updated_at.isoformat, p.results_count⟩]
    rw [if_pos rfl]
    dsimp only
    rw [loads_strListJson, optBind_some]
    show (asStrList (JVal.arr (p.sources.map JVal.str)) >>= _) = _
    rw [show asStrList (JVal.arr (p.sources.map JVal.str))
        = some p.sources from by rw [asStrList, strsOf_map_str], optBind_some]
    rw [fromisoformat_isoformat _ h1, optBind_some,
      fromisoformat_isoformat _ h2, optBind_some]
  · intro pid results db prior hres hprior
    obtain ⟨rows, hrows⟩ := mapMO_isSome (encodeResultRow pid) results
      (fun r hr => by
        have h2 := (hres r hr).2
        unfold encodeResultRow
        unfold dumps
        cases he : encVal r.metadata with
        | none =>
          rw [he] at h2
          simp at h2
        | some cs => rfl)
    unfold save_search_results
    rw [hrows]
    unfold get_search_results
    dsimp only
    rw [List.filter_append]
    have hfr : List.filter (fun r => decide (r.project_id = pid)) rows = rows :=
      List.filter_eq_self.mpr
        (fun row hrow => by
          simp only [decide_eq_true_eq]
          exact mapMO_encode_pid pid results rows hrows row hrow)
    rw [hfr]
    rw [mapMO_append decodeResultRow _ rows prior results hprior
      (mapMO_decode_encode pid results rows hrows (fun r hr => (hres r hr).1))]

/-- C7: `save_search_results` is atomic per call: when it returns `True`,
one row per result has been appended and committed; when an insert raises
(non-serialisable metadata), it returns `False` and the stored rows are
unchanged. -/
theorem c7_save_atomicity (pid : String) (results : List PRSearchResult)
    (db : DB) :
    ((save_search_results pid results db).2 = true →
      ∃ rows, mapMO (encodeResultRow pid) results = some rows ∧
        rows.length = results.length ∧
        (save_search_results pid results db).1
          = ⟨db.projects, db.search_results ++ rows⟩) ∧
    ((save_search_results pid results db).2 = false →
      (save_search_results pid results db).1 = db) := by
  unfold save_search_results
  cases h : mapMO (encodeResultRow pid) results with
  | none =>
    dsimp only
    exact ⟨fun hh => absurd hh (by simp), fun _ => rfl⟩
  | some rows =>
    dsimp only
    exact ⟨fun _ => ⟨rows, rfl, mapMO_length _ results rows h, rfl⟩,
      fun hh => absurd hh (by simp)⟩

theorem c4_witness :
    get_project "p1" (save_project c4Proj c4Db).1 = some c4Proj ∧
    get_search_results "p1" (save_search_results "p1" [c4Res] c4Db).1
      = [c4Res] := by
  constructor
  · exact c4_persistence_roundtrip.1 c4Proj c4Db (by decide) (by decide)
  · have h := c4_persistence_roundtrip.2 "p1" [c4Res] c4Db []
      (by
        intro r hr
        rw [List.mem_singleton] at hr
        subst hr
        exact ⟨by decide, rfl⟩)
      rfl
    rw [List.nil_append] at h
    exact h

theorem c7_witness :
    (save_search_results "p1" [c4Res] c4Db).1.search_results.length = 1 ∧
    (save_search_results "p1" [c7Bad] c4Db).1 = c4Db := by
  constructor
  · obtain ⟨rows, h1, h2, h3⟩ := (c7_save_atomicity "p1" [c4Res] c4Db).1 rfl
    rw [h3]
    show (c4Db.search_results ++ rows).length = 1
    rw [List.length_append, h2]
    rfl
  · exact (c7_save_atomicity "p1" [c7Bad] c4Db).2 rfl
